import Mathlib

/-!
Verification of the ICS → Google Calendar sync program (`src/sync.py`).

The development shallowly embeds the program's pure core:

* instants are modelled as integer seconds on the UTC timeline; a wall-clock
  value is an instant plus the offset that the attached timezone assigned to it
  (`Aware`); timezones are abstract pairs of offset functions (`Zone`),
  matching how `pytz` zones are consumed by the code (`localize` picks an
  offset for a naive local time, `astimezone` picks an offset for an instant;
  attaching a zone with `replace(tzinfo=...)` is modelled like `localize`);
* the Gregorian calendar rendering done by `date.isoformat`,
  `datetime.isoformat` and `strftime` is implemented from first principles
  (`civilFromDays` / `daysFromCivil`);
* the `md5` hex digests used by `event_fingerprint` and the whole-feed hash
  are modelled as an abstract digest function carried by the environment
  (`Env.digest`); collision freedom is an explicit hypothesis where needed;
* the network, the ICS parser and the Google API are inputs/outputs: a run is
  a pure function from the fetched document, the parsed events and the store's
  current contents to the list of emitted operations (`Op`).

Python truthiness details that the source relies on (empty rrule dict, empty
string tzid, zero duration, `None` fingerprints) are modelled explicitly.
-/

/-! ## Gregorian calendar arithmetic

`daysUpTo w` counts the days in the years `1 .. w` of the proleptic Gregorian
calendar; day number `0` of the calendar is 0001-01-01, and the Unix epoch
1970-01-01 is day `719162`. -/

def daysUpTo (w : Int) : Int := 365 * w + w / 4 - w / 100 + w / 400

def adjYear (n : Int) : Nat → Int → Int
  | 0, y => y
  | k + 1, y => if daysUpTo y ≤ n then y else adjYear n k (y - 1)

def yearOf (n : Int) : Int := adjYear n 16 (n / 365)

def isLeapB (y : Int) : Bool := decide ((y % 4 = 0 ∧ y % 100 ≠ 0) ∨ y % 400 = 0)

def monthLengths (leap : Bool) : List Int :=
  [31, if leap then 29 else 28, 31, 30, 31, 30, 31, 31, 30, 31, 30, 31]

def mdFromDoy (m doy : Int) : List Int → Int × Int
  | [] => (m, doy + 1)
  | len :: rest => if doy < len then (m, doy + 1) else mdFromDoy (m + 1) (doy - len) rest

def sumFirst (k : Int) : List Int → Int
  | [] => 0
  | len :: rest => if k ≤ 0 then 0 else len + sumFirst (k - 1) rest

def monthDayOfDoy (leap : Bool) (doy : Int) : Int × Int := mdFromDoy 1 doy (monthLengths leap)

def daysBeforeMonth (leap : Bool) (m : Int) : Int := sumFirst (m - 1) (monthLengths leap)

/-- Day number since the Unix epoch to civil `(year, month, day)`. -/
def civilFromDays (z : Int) : Int × Int × Int :=
  let n := z + 719162
  let w := yearOf n
  let md := monthDayOfDoy (isLeapB (w + 1)) (n - daysUpTo w)
  (w + 1, md.1, md.2)

/-- Civil `(year, month, day)` to day number since the Unix epoch. -/
def daysFromCivil (y m d : Int) : Int :=
  daysUpTo (y - 1) + daysBeforeMonth (isLeapB y) m + (d - 1) - 719162

/-! ## Decimal rendering (as done by `isoformat` / `strftime`)

Python's `datetime` restricts years to `1 .. 9999`, so the year always
renders as four digits; all other numeric fields are two digits. -/

def digCh (k : Nat) : Char := Char.ofNat (48 + k)

def pad2 (n : Int) : List Char := [digCh (n.toNat / 10 % 10), digCh (n.toNat % 10)]

def pad4 (n : Int) : List Char :=
  [digCh (n.toNat / 1000 % 10), digCh (n.toNat / 100 % 10), digCh (n.toNat / 10 % 10),
    digCh (n.toNat % 10)]

/-- `YYYY-MM-DD` for a day number (Python `date.isoformat`). -/
def fmtDateL (day : Int) : List Char :=
  pad4 (civilFromDays day).1 ++
    ('-' :: (pad2 (civilFromDays day).2.1 ++ ('-' :: pad2 (civilFromDays day).2.2)))

def fmtDateISO (day : Int) : String := (fmtDateL day).asString

/-- `HH:MM:SS` for a seconds-of-day value. -/
def timeOfL (s : Int) : List Char :=
  pad2 (s / 3600) ++ (':' :: (pad2 (s % 3600 / 60) ++ (':' :: pad2 (s % 60))))

/-- `±HH:MM[:SS]` for a UTC offset in seconds (Python aware `isoformat`). -/
def offsetL (off : Int) : List Char :=
  let ao := if 0 ≤ off then off else -off
  (if 0 ≤ off then '+' else '-') ::
    (pad2 (ao / 3600) ++ (':' :: (pad2 (ao % 3600 / 60) ++
      (if ao % 60 = 0 then [] else ':' :: pad2 (ao % 60)))))

/-! ## Aware datetimes -/

/-- An aware Python datetime: the instant `utc` (seconds since the epoch), the
UTC offset `off` (seconds) its tzinfo reported when it was built — so its wall
clock reads `utc + off` — and the zone's name. Adding a timedelta keeps the
offset (pytz offsets are fixed once attached); `astimezone` recomputes it. -/
structure Aware where
  utc : Int
  off : Int
  zoneName : String
deriving DecidableEq, Repr

def wallSecs (a : Aware) : Int := a.utc + a.off

def wallDay (a : Aware) : Int := wallSecs a / 86400

/-- Python `datetime.isoformat()` of an aware value: `YYYY-MM-DDTHH:MM:SS` of
the wall clock followed by the offset. -/
def isoAwareL (a : Aware) : List Char :=
  fmtDateL (wallSecs a / 86400) ++ ('T' :: (timeOfL (wallSecs a % 86400) ++ offsetL a.off))

def isoAware (a : Aware) : String := (isoAwareL a).asString

/-- `YYYYMMDD` of a day number (`strftime("%Y%m%d")`). -/
def compactDateL (day : Int) : List Char :=
  pad4 (civilFromDays day).1 ++ (pad2 (civilFromDays day).2.1 ++ pad2 (civilFromDays day).2.2)

/-- `YYYYMMDDTHHMMSS` of a wall-clock seconds value (`strftime("%Y%m%dT%H%M%S")`). -/
def compactLocalL (w : Int) : List Char :=
  compactDateL (w / 86400) ++ ('T' :: (pad2 (w % 86400 / 3600) ++
    (pad2 (w % 86400 % 3600 / 60) ++ pad2 (w % 86400 % 60))))

/-- `YYYYMMDDThhmmssZ` of an instant (`strftime("%Y%m%dT%H%M%SZ")` after
conversion to UTC). -/
def compactUTC (u : Int) : String := (compactLocalL u ++ ['Z']).asString

/-! ## Timezones and `normalize_dt` (sync.py lines 95-116, 166-169) -/

/-- An abstract timezone: the offset chosen when localizing a naive wall-clock
value, and the offset in force at a given UTC instant. -/
structure Zone where
  offAtLocal : Int → Int
  offAtInstant : Int → Int

/-- The run environment: the zone database (`pytz.timezone`), the configured
default `TIMEZONE` name, the `PAST_DAYS` retention window and the `md5` hex
digest, kept abstract. -/
structure Env where
  zones : String → Zone
  tzName : String
  pastDays : Int
  digest : String → String

def WINDOWS_TZMAP : List (String × String) :=
  [("Romance Standard Time", "Europe/Paris"),
   ("W. Europe Standard Time", "Europe/Berlin"),
   ("Central European Standard Time", "Europe/Warsaw"),
   ("FLE Standard Time", "Europe/Helsinki")]

def alookup {β : Type} (k : String) : List (String × β) → Option β
  | [] => none
  | kv :: t => if kv.1 = k then some kv.2 else alookup k t

/-- `map_tzid` (sync.py 166-169): an absent or empty tzid falls back to the
configured default; known Windows names map to IANA ids; anything else passes
through unchanged. -/
def map_tzid (env : Env) : Option String → String
  | none => env.tzName
  | some s => if s = "" then env.tzName else (alookup s WINDOWS_TZMAP).getD s

/-- A feed-native instant: date-only, naive datetime (wall-clock seconds), or
timezone-aware datetime. -/
inductive DTValue where
  | date (day : Int)
  | naive (n : Int)
  | aware (a : Aware)
deriving DecidableEq, Repr

/-- Structural all-day test: is the value a bare date? -/
def isDateV : DTValue → Bool
  | DTValue.date _ => true
  | DTValue.naive _ => false
  | DTValue.aware _ => false

/-- The `target_tz` argument of `normalize_dt`: omitted (`None`), a string
(resolved through `map_tzid`), or a zone object (as passed from
`to_gcal_resource`, identified by its IANA name). -/
inductive TzArg where
  | noArg
  | strArg (s : String)
  | zoneObj (name : String)
deriving DecidableEq, Repr

def resolveTarget (env : Env) : TzArg → String
  | TzArg.noArg => env.tzName
  | TzArg.strArg s => map_tzid env (some s)
  | TzArg.zoneObj n => n

/-- `astimezone`: same instant, offset and name taken from the new zone. -/
def astz (a : Aware) (env : Env) (name : String) : Aware :=
  { utc := a.utc, off := (env.zones name).offAtInstant a.utc, zoneName := name }

/-- Attach a zone to a naive wall-clock value (pytz `localize`, and
`replace(tzinfo=...)` in the all-day branch): the zone picks the offset for
that wall-clock reading. -/
def localizeZ (env : Env) (name : String) (n : Int) : Aware :=
  { utc := n - (env.zones name).offAtLocal n, off := (env.zones name).offAtLocal n,
    zoneName := name }

/-- `normalize_dt` (sync.py 95-116). Returns `(is_all_day, aware value in the
target zone)`. A date yields `(True, midnight of that date with the target
zone attached)`; a naive datetime is localized in the source zone (tzid, or
the target zone when the tzid is absent or empty) and converted; an aware
datetime is converted directly. -/
def normalize_dt (env : Env) (value : DTValue) (src_tzid : Option String)
    (target_tz : TzArg) : Bool × Aware :=
  let targetName := resolveTarget env target_tz
  match value with
  | DTValue.date day => (true, localizeZ env targetName (day * 86400))
  | DTValue.naive n =>
    let srcName := match src_tzid with
      | some s => if s = "" then targetName else map_tzid env (some s)
      | none => targetName
    (false, astz (localizeZ env srcName n) env targetName)
  | DTValue.aware a => (false, astz a env targetName)

/-- `aware + timedelta`: wall-clock addition at the frozen offset, which moves
the instant by the same amount. -/
def addSecs (a : Aware) (d : Int) : Aware := { a with utc := a.utc + d }

/-! ## JSON serialization (`json.dumps` with `ensure_ascii`, default
separators) used by `event_fingerprint` (sync.py 118-134) -/

def hexCh (k : Nat) : Char := if k < 10 then Char.ofNat (48 + k) else Char.ofNat (87 + k)

def hex4 (n : Nat) : List Char :=
  [hexCh (n / 4096 % 16), hexCh (n / 256 % 16), hexCh (n / 16 % 16), hexCh (n % 16)]

/-- `\uXXXX` escape; astral codepoints become a surrogate pair. -/
def uescape (c : Char) : List Char :=
  if c.toNat < 65536 then '\\' :: 'u' :: hex4 c.toNat
  else '\\' :: 'u' :: hex4 (55296 + (c.toNat - 65536) / 1024) ++
    '\\' :: 'u' :: hex4 (56320 + (c.toNat - 65536) % 1024)

/-- Per-character JSON escaping of Python's ASCII encoder: the two-character
escapes for `"`, `\`, newline, carriage return, tab, backspace and form feed;
`\uXXXX` for the remaining controls and for everything outside `0x20 .. 0x7e`;
all other characters unchanged. -/
def escChar (c : Char) : List Char :=
  if c = '"' then ['\\', '"']
  else if c = '\\' then ['\\', '\\']
  else if c = '\n' then ['\\', 'n']
  else if c = '\r' then ['\\', 'r']
  else if c = '\t' then ['\\', 't']
  else if c.toNat = 8 then ['\\', 'b']
  else if c.toNat = 12 then ['\\', 'f']
  else if c.toNat < 32 ∨ 126 < c.toNat then uescape c
  else [c]

def escapeL (l : List Char) : List Char := l.flatMap escChar

/-- A JSON string literal: `"` + escaped content + `"`. -/
def jsonStrL (s : String) : List Char := '"' :: escapeL s.data ++ ['"']

/-- Body of a JSON list of strings, rendered with the default `", "`
separator, up to and including the closing bracket. -/
def jsonListBody : List String → List Char
  | [] => [']']
  | [s] => jsonStrL s ++ [']']
  | s :: t => jsonStrL s ++ ',' :: ' ' :: jsonListBody t

def jsonListL (l : List String) : List Char := '[' :: jsonListBody l

/-- The serialized fingerprint payload: `json.dumps` with `sort_keys=True` of
the dict built in `event_fingerprint`, whose keys sort as
`d, et, ex, l, rd, rr, s, st`. -/
def fpPayloadL (su de lo st et rr : String) (ex rd : List String) : List Char :=
  '\x7b' :: '"' :: 'd' :: '"' :: ':' :: ' ' :: (jsonStrL de ++
  ',' :: ' ' :: '"' :: 'e' :: 't' :: '"' :: ':' :: ' ' :: (jsonStrL et ++
  ',' :: ' ' :: '"' :: 'e' :: 'x' :: '"' :: ':' :: ' ' :: (jsonListL ex ++
  ',' :: ' ' :: '"' :: 'l' :: '"' :: ':' :: ' ' :: (jsonStrL lo ++
  ',' :: ' ' :: '"' :: 'r' :: 'd' :: '"' :: ':' :: ' ' :: (jsonListL rd ++
  ',' :: ' ' :: '"' :: 'r' :: 'r' :: '"' :: ':' :: ' ' :: (jsonStrL rr ++
  ',' :: ' ' :: '"' :: 's' :: '"' :: ':' :: ' ' :: (jsonStrL su ++
  ',' :: ' ' :: '"' :: 's' :: 't' :: '"' :: ':' :: ' ' :: (jsonStrL st ++ ['\x7d']))))))))

/-- `event_fingerprint` (sync.py 118-134): the digest of the canonical ordered
serialization. `summary or ""` and friends are the identity on strings; the
`rrule or ""` defaulting of a missing rule is the `Option.getD`. -/
def event_fingerprint (env : Env) (summary description loc start_str end_str : String)
    (rrule : Option String) (exdates rdates : List String) : String :=
  env.digest (fpPayloadL summary description loc start_str end_str (rrule.getD "")
    exdates rdates).asString

/-! ## Canonical Google event times -/

/-- A Google Calendar event time: `{date: D}` or `{dateTime: T, timeZone: Z}`. -/
inductive GTime where
  | date (d : String)
  | dateTime (dt tz : String)
deriving DecidableEq, Repr

def isDateG : GTime → Bool
  | GTime.date _ => true
  | GTime.dateTime _ _ => false

/-- `json.dumps` of a start/end dict (insertion order, default separators), as
passed to `event_fingerprint` from `to_gcal_resource`. -/
def jsonOfGTimeL : GTime → List Char
  | GTime.date s =>
    '\x7b' :: '"' :: 'd' :: 'a' :: 't' :: 'e' :: '"' :: ':' :: ' ' :: (jsonStrL s ++ ['\x7d'])
  | GTime.dateTime t z =>
    '\x7b' :: '"' :: 'd' :: 'a' :: 't' :: 'e' :: 'T' :: 'i' :: 'm' :: 'e' :: '"' :: ':' :: ' ' ::
      (jsonStrL t ++ ',' :: ' ' :: '"' :: 't' :: 'i' :: 'm' :: 'e' :: 'Z' :: 'o' :: 'n' :: 'e' ::
        '"' :: ':' :: ' ' :: (jsonStrL z ++ ['\x7d']))

def jsonOfGTime (g : GTime) : String := (jsonOfGTimeL g).asString

/-! ## Recurrence rule re-encoding (sync.py 56-91, 172-186) -/

/-- A value inside an icalendar `RRULE` mapping: a datetime, a date, an
integer, or plain text (weekday codes, frequency names, ...). -/
inductive RVal where
  | dt (a : Aware)
  | d (day : Int)
  | num (n : Int)
  | str (s : String)
deriving DecidableEq, Repr

/-- `_fmt_until_value` (sync.py 77-91): datetimes convert to UTC and render
compactly, a bare date is taken as midnight UTC, anything else is `str(val)`.
Datetime `UNTIL` values are modelled as aware instants (icalendar parses the
`...Z` form to an aware datetime). -/
def fmt_until_value : RVal → String
  | RVal.dt a => compactUTC a.utc
  | RVal.d day => compactUTC (day * 86400)
  | RVal.num n => toString n
  | RVal.str s => s

/-- Python `str()` of an `RVal` (dates render `YYYY-MM-DD`, datetimes use a
space separator plus offset). -/
def strRVal : RVal → String
  | RVal.dt a =>
    (fmtDateL (wallSecs a / 86400) ++ (' ' :: (timeOfL (wallSecs a % 86400) ++ offsetL a.off))).asString
  | RVal.d day => fmtDateISO day
  | RVal.num n => toString n
  | RVal.str s => s

/-- Python `int()` as applied to a `COUNT` value; non-numeric inputs raise in
Python and only integer counts occur in feeds. -/
def intRVal : RVal → Int
  | RVal.num n => n
  | RVal.str s => (s.toInt?).getD 0
  | RVal.dt _ => 0
  | RVal.d _ => 0

/-- ASCII upper-casing, as applied to RRULE keys and values. -/
def upperStr (s : String) : String := (s.data.map Char.toUpper).asString

/-- Codepoint-lexicographic string order (Python string comparison). -/
def lexLe : List Char → List Char → Bool
  | [], _ => true
  | _ :: _, [] => false
  | a :: s, b :: t => if a = b then lexLe s t else decide (a < b)

def insSorted {α : Type} (le : α → α → Bool) (x : α) : List α → List α
  | [] => [x]
  | y :: t => if le y x then y :: insSorted le x t else x :: y :: t

/-- Stable sort (Python `sorted`): equal keys keep their original order. -/
def stableSort {α : Type} (le : α → α → Bool) (l : List α) : List α :=
  l.foldl (fun acc x => insSorted le x acc) []

/-- `build_rrule_string` (sync.py 172-186): keys sorted case-insensitively and
upper-cased, `UNTIL` via `_fmt_until_value`, `COUNT` via `int`, every other
value upper-cased `str`; values joined by `,`, pairs joined by `;`. -/
def build_rrule_string (rrule_dict : List (String × List RVal)) : String :=
  let sorted := stableSort (fun a b => lexLe (upperStr a.1).data (upperStr b.1).data) rrule_dict
  String.intercalate ";" (sorted.map (fun kv =>
    let key := upperStr kv.1
    key ++ "=" ++ String.intercalate "," (kv.2.map (fun v =>
      if key = "UNTIL" then fmt_until_value v
      else if key = "COUNT" then toString (intRVal v)
      else upperStr (strRVal v)))))

/-- An element of an `EXDATE`/`RDATE` list after normalization: the code keeps
the aware datetime for timed events and keeps only its `.date()` for all-day
events. -/
inductive DateOrDT where
  | d (day : Int)
  | t (a : Aware)
deriving DecidableEq, Repr

def compactDateOf : DateOrDT → String
  | DateOrDT.d day => (compactDateL day).asString
  | DateOrDT.t a => (compactDateL (wallSecs a / 86400)).asString

def compactLocalOf : DateOrDT → String
  | DateOrDT.d day => (compactLocalL (day * 86400)).asString
  | DateOrDT.t a => (compactLocalL (wallSecs a)).asString

/-- `isoformat()` of an `EXDATE`/`RDATE` element, as serialized into the
fingerprint. -/
def isoDateOrDT : DateOrDT → String
  | DateOrDT.d day => fmtDateISO day
  | DateOrDT.t a => isoAware a

/-- `_format_recur_line` (sync.py 56-74). -/
def format_recur_line (kind : String) (is_all_day : Bool) (dt_list : List DateOrDT)
    (tzid : String) : String :=
  if is_all_day then kind ++ ";VALUE=DATE:" ++ String.intercalate "," (dt_list.map compactDateOf)
  else kind ++ ";TZID=" ++ tzid ++ ":" ++ String.intercalate "," (dt_list.map compactLocalOf)

/-! ## Raw feed events and the canonicalizer (sync.py 189-303) -/

/-- A parsed VEVENT as `to_gcal_resource` consumes it: each datetime-bearing
property carries its value and its optional `TZID` parameter; `EXDATE`/`RDATE`
are lists of property instances, each with one `TZID` parameter and a list of
date components. Text fields hold `str(...)` of the property, defaulted to the
empty string. -/
structure VEvent where
  uid : String
  recurrenceId : Option (DTValue × Option String)
  summary : String
  description : String
  location : String
  dtstart : Option (DTValue × Option String)
  dtend : Option (DTValue × Option String)
  duration : Option Int
  rrule : Option (List (String × List RVal))
  exdate : List (Option String × List DTValue)
  rdate : List (Option String × List DTValue)
deriving DecidableEq, Repr

/-- The canonical Google resource built by `to_gcal_resource`; the private
extended properties are flattened into `srcTag` (`"src"`), `outlook_uid` and
`fp`. `endTime` embeds the Python `end` key. -/
structure GEvent where
  summary : String
  description : String
  location : String
  start : GTime
  endTime : GTime
  recurrence : Option (List String)
  srcTag : String
  outlook_uid : String
  fp : String
deriving DecidableEq, Repr

/-- Start/end computation of `to_gcal_resource` (sync.py 212-227): normalize
the start in the event zone; an explicit `DTEND` is normalized the same way;
otherwise a (truthy, i.e. non-zero) `DURATION` is added to the start;
otherwise the end defaults to start plus one day (all-day) or one hour
(timed); in the two computed branches the end's all-day flag is copied from
the start. Returns `((allday_start, start), (allday_end, end))`. -/
def canonTimes (env : Env) (event_tzid : String) (dsv : DTValue) (stz : Option String)
    (dtend : Option (DTValue × Option String)) (dur : Option Int) :
    (Bool × Aware) × (Bool × Aware) :=
  let s := normalize_dt env dsv stz (TzArg.zoneObj event_tzid)
  let e := match dtend with
    | some de => normalize_dt env de.1 de.2 (TzArg.zoneObj event_tzid)
    | none => match dur with
      | some d =>
        if d = 0 then
          (s.1, astz (addSecs s.2 (if s.1 then 86400 else 3600)) env event_tzid)
        else (s.1, astz (addSecs s.2 d) env event_tzid)
      | none => (s.1, astz (addSecs s.2 (if s.1 then 86400 else 3600)) env event_tzid)
  (s, e)

/-- Build the Google start/end value (sync.py 229-237): `{date: ...}` of the
wall-clock date for all-day values, else `{dateTime: isoformat, timeZone}`. -/
def gtimeOf (allday : Bool) (a : Aware) (tzid : String) : GTime :=
  if allday then GTime.date (fmtDateISO (wallDay a))
  else GTime.dateTime (isoAware a) tzid

/-- `to_gcal_resource` (sync.py 189-303). Returns `none` when the event has no
`DTSTART` (the code would fail there; `main` filters such events out first).

The identity is the base UID, suffixed for a recurrence override with `::` and
the ISO form of the override instant normalized by `normalize_dt` with its own
`TZID` as source and the *default* target zone (the `target_tz` argument is
omitted at the call site). -/
def to_gcal_resource (env : Env) (vevent : VEvent) : Option (String × GEvent) :=
  match vevent.dtstart with
  | none => none
  | some ds =>
    let base_uid := vevent.uid
    let uid := match vevent.recurrenceId with
      | some rid => base_uid ++ "::" ++ isoAware (normalize_dt env rid.1 rid.2 TzArg.noArg).2
      | none => base_uid
    let event_tzid := map_tzid env ds.2
    let se := canonTimes env event_tzid ds.1 ds.2 vevent.dtend vevent.duration
    let allday_start := se.1.1
    let start_dt_local := se.1.2
    let allday_end := se.2.1
    let end_dt_local := se.2.2
    let start := gtimeOf allday_start start_dt_local event_tzid
    let gend := gtimeOf allday_end end_dt_local event_tzid
    let g_rrule : Option String := match vevent.rrule with
      | some rd => if rd = [] then none else some (build_rrule_string rd)
      | none => none
    let exdates_dt := vevent.exdate.flatMap (fun pe => pe.2.map (fun comp =>
      let x := (normalize_dt env comp pe.1 (TzArg.zoneObj event_tzid)).2
      if allday_start then DateOrDT.d (wallDay x) else DateOrDT.t x))
    let rdates_dt := vevent.rdate.flatMap (fun pr => pr.2.map (fun comp =>
      let x := (normalize_dt env comp pr.1 (TzArg.zoneObj event_tzid)).2
      if allday_start then DateOrDT.d (wallDay x) else DateOrDT.t x))
    let recurrence_lines : List String :=
      if vevent.recurrenceId.isNone then
        (match g_rrule with
          | some gr => if gr = "" then [] else ["RRULE:" ++ gr]
          | none => []) ++
        (if exdates_dt.isEmpty then []
          else [format_recur_line "EXDATE" (isDateG start) exdates_dt event_tzid]) ++
        (if rdates_dt.isEmpty then []
          else [format_recur_line "RDATE" (isDateG start) rdates_dt event_tzid])
      else []
    let fp := event_fingerprint env vevent.summary vevent.description vevent.location
      (jsonOfGTime start) (jsonOfGTime gend) g_rrule
      (exdates_dt.map isoDateOrDT) (rdates_dt.map isoDateOrDT)
    some (uid,
      { summary := vevent.summary, description := vevent.description,
        location := vevent.location, start := start, endTime := gend,
        recurrence := if recurrence_lines.isEmpty then none else some recurrence_lines,
        srcTag := "outlook_ics", outlook_uid := uid, fp := fp })

/-- The identity computed by `to_gcal_resource` (`none` when the event has no
start). -/
def identityOf (env : Env) (ev : VEvent) : Option String :=
  (to_gcal_resource env ev).map Prod.fst

/-! ## The reconciler run (sync.py `main`, 306-399) -/

/-- A previously synced target-store event as the reconciler sees it: its
store id and the fingerprint read back from the private annotation (absent
when the annotation lacks an `fp` key). -/
structure Stored where
  id : String
  fp : Option String
deriving DecidableEq, Repr

/-- The persisted sync state (`.state.json`). -/
structure SyncState where
  etag : Option String
  last_modified : Option String
  hash : Option String
deriving DecidableEq, Repr

/-- The HTTP response for the feed fetch, as far as the run inspects it. -/
structure FetchResp where
  status304 : Bool
  content : String
  etag : Option String
  last_modified : Option String
deriving DecidableEq, Repr

/-- The externally visible operations a run performs, in order. Mutations are
tagged with the identity (`outlook_uid`) they concern. -/
inductive Op where
  | saveState (st : SyncState)
  | storeList
  | insert (uid : String) (res : GEvent)
  | patch (uid eid : String) (res : GEvent)
  | delete (uid eid : String)
deriving DecidableEq, Repr

def opUid : Op → Option String
  | Op.saveState _ => none
  | Op.storeList => none
  | Op.insert u _ => some u
  | Op.patch u _ _ => some u
  | Op.delete u _ => some u

def opsFor (uid : String) (l : List Op) : List Op := l.filter (fun op => opUid op = some uid)

/-- The upsert loop (sync.py 372-392): for each snapshot entry, patch when an
existing event with that identity has a different (or missing) fingerprint,
do nothing when the fingerprints agree, insert when no event matches. -/
def upsertOps (src : List (String × GEvent)) (existing : List (String × Stored)) : List Op :=
  src.flatMap (fun kv =>
    match alookup kv.1 existing with
    | some ex => if ex.fp = some kv.2.fp then [] else [Op.patch kv.1 ex.id kv.2]
    | none => [Op.insert kv.1 kv.2])

/-- The delete loop (sync.py 394-399): delete every existing managed event
whose identity is absent from the snapshot. -/
def deleteOps (src : List (String × GEvent)) (existing : List (String × Stored)) : List Op :=
  existing.flatMap (fun kv =>
    match alookup kv.1 src with
    | some _ => []
    | none => [Op.delete kv.1 kv.2.id])

def reconcileOps (src : List (String × GEvent)) (existing : List (String × Stored)) : List Op :=
  upsertOps src existing ++ deleteOps src existing

/-- Python dict assignment on an association list: overwrite in place if the
key exists, else append. -/
def dictSet {β : Type} (l : List (String × β)) (k : String) (v : β) : List (String × β) :=
  if k ∈ l.map Prod.fst then l.map (fun kv => if kv.1 = k then (k, v) else kv)
  else l ++ [(k, v)]

/-- The retention filter (sync.py 344-364): an event with no `DTSTART` is
skipped; a master (has an `RRULE` property and no `RECURRENCE-ID`) is always
kept; anything else is kept iff its normalized start (default target zone) is
on or after `now - PAST_DAYS` days. -/
def keepEvent (env : Env) (nowUtc : Int) (ev : VEvent) : Bool :=
  match ev.dtstart with
  | none => false
  | some sd =>
    let start_dt := (normalize_dt env sd.1 sd.2 TzArg.noArg).2
    if ev.rrule.isSome && ev.recurrenceId.isNone then true
    else decide (nowUtc - env.pastDays * 86400 ≤ start_dt.utc)

/-- One step of the snapshot loop body (sync.py 345-367). -/
def snapStep (env : Env) (nowUtc : Int) (acc : List (String × GEvent)) (comp : VEvent) :
    List (String × GEvent) :=
  if keepEvent env nowUtc comp then
    match to_gcal_resource env comp with
    | some p => dictSet acc p.1 p.2
    | none => acc
  else acc

/-- The kept snapshot `src` (sync.py 344-367): canonical resources of the kept
events, keyed by identity in a dict. -/
def keptSnapshot (env : Env) (nowUtc : Int) (cal : List VEvent) : List (String × GEvent) :=
  cal.foldl (snapStep env nowUtc) []

/-- One reconciler run (sync.py `main`; Lean reserves the name `main` for an
IO entry point, hence `mainRun`): a 304 answer or an unchanged content
hash exits with no operations at all; otherwise the new sync state (response
etag, last-modified, content hash) is saved first, then the store is listed,
then the upsert and delete loops run. -/
def mainRun (env : Env) (state : SyncState) (resp : FetchResp) (cal : List VEvent)
    (nowUtc : Int) (existing : List (String × Stored)) : List Op :=
  if resp.status304 then []
  else
    let curr_hash := env.digest resp.content
    if state.hash = some curr_hash then []
    else
      let new_state : SyncState :=
        { etag := resp.etag, last_modified := resp.last_modified, hash := some curr_hash }
      Op.saveState new_state :: Op.storeList ::
        reconcileOps (keptSnapshot env nowUtc cal) existing

/-! ## Concrete fixtures used by witnesses and counterexamples -/

/-- All-UTC environment: every zone has offset `0`; the digest is modelled as
the identity (collision-free). -/
def envUTC : Env :=
  { zones := fun _ => ⟨fun _ => 0, fun _ => 0⟩, tzName := "UTC", pastDays := 30, digest := id }

/-- Environment whose default zone is `Europe/Paris` at a constant `+01:00`
while `Europe/Helsinki` sits at `+02:00` (their standard winter offsets). -/
def envHel : Env :=
  { zones := fun n =>
      if n = "Europe/Helsinki" then ⟨fun _ => 7200, fun _ => 7200⟩
      else ⟨fun _ => 3600, fun _ => 3600⟩,
    tzName := "Europe/Paris", pastDays := 30, digest := id }

/-- Environment where every zone (in particular `Europe/Paris` in January) has
offset `+01:00`. -/
def envParis : Env :=
  { zones := fun _ => ⟨fun _ => 3600, fun _ => 3600⟩, tzName := "Europe/Paris",
    pastDays := 30, digest := id }

/-- A timed event whose explicit `DTEND` is a bare date: `DTSTART` is the
naive datetime 1970-01-01T00:00:00, `DTEND` the date 1970-01-02. -/
def evMixed : VEvent :=
  { uid := "e1", recurrenceId := none, summary := "", description := "",
    location := "", dtstart := some (DTValue.naive 0, none),
    dtend := some (DTValue.date 1, none), duration := none,
    rrule := none, exdate := [], rdate := [] }

/-- The "Standup" scenario event: naive start 2025-01-10T09:00 with
`TZID=Europe/Paris`, no end, no duration. -/
def evStandup : VEvent :=
  { uid := "standup1", recurrenceId := none, summary := "Standup", description := "",
    location := "",
    dtstart := some (DTValue.naive (daysFromCivil 2025 1 10 * 86400 + 9 * 3600),
      some "Europe/Paris"),
    dtend := none, duration := none, rrule := none, exdate := [], rdate := [] }

/-- A recurrence override in a Helsinki-zone series: `RECURRENCE-ID` is the
aware UTC instant `1000000`, `DTSTART` carries `TZID=FLE Standard Time`
(resolving to `Europe/Helsinki`). -/
def evOvr : VEvent :=
  { uid := "series1", recurrenceId := some (DTValue.aware ⟨1000000, 0, "UTC"⟩, none),
    summary := "", description := "", location := "",
    dtstart := some (DTValue.naive 1000000, some "FLE Standard Time"),
    dtend := none, duration := none, rrule := none, exdate := [], rdate := [] }

/-- A second override of the same series at a different instant. -/
def evOvr2 : VEvent :=
  { uid := "series1", recurrenceId := some (DTValue.aware ⟨1003600, 0, "UTC"⟩, none),
    summary := "", description := "", location := "",
    dtstart := some (DTValue.naive 1003600, some "FLE Standard Time"),
    dtend := none, duration := none, rrule := none, exdate := [], rdate := [] }

/-- An event with no `DTSTART` at all. -/
def evNoStart : VEvent :=
  { uid := "ghost", recurrenceId := none, summary := "x", description := "",
    location := "", dtstart := none, dtend := none, duration := none,
    rrule := none, exdate := [], rdate := [] }

/-- A non-recurring event starting at instant `0`. -/
def evPlain : VEvent :=
  { uid := "p1", recurrenceId := none, summary := "s", description := "",
    location := "", dtstart := some (DTValue.naive 0, none), dtend := none,
    duration := none, rrule := none, exdate := [], rdate := [] }


/-! ## Proof-infrastructure definitions: decimal and JSON decoders

These are not part of the program; they are left inverses used to prove the
program's renderings injective. -/

def unpadN (l : List Char) : Nat := l.foldl (fun acc c => acc * 10 + (c.toNat - 48)) 0

/-- In-range day numbers: those whose civil year is in `1 .. 9999`. -/
def dayRangeOK (z : Int) : Prop := -719162 ≤ z ∧ z + 719162 < daysUpTo 9999

instance dayRangeOK_dec (z : Int) : Decidable (dayRangeOK z) := by
  unfold dayRangeOK
  exact instDecidableAnd

/-- Aware values whose isoformat is faithfully invertible: whole-minute offset
below a day (as in Python) and wall-clock year in `1 .. 9999`. -/
def isoRangeOK (a : Aware) : Prop :=
  a.off % 60 = 0 ∧ -86400 < a.off ∧ a.off < 86400 ∧ dayRangeOK (wallSecs a / 86400)

instance isoRangeOK_dec (a : Aware) : Decidable (isoRangeOK a) := by
  unfold isoRangeOK
  exact instDecidableAnd

def hexVal (c : Char) : Option Nat :=
  if 48 ≤ c.toNat ∧ c.toNat ≤ 57 then some (c.toNat - 48)
  else if 97 ≤ c.toNat ∧ c.toNat ≤ 102 then some (c.toNat - 87)
  else none

def hex4Val (a b c d : Char) : Option Nat :=
  match hexVal a, hexVal b, hexVal c, hexVal d with
  | some x, some y, some z, some w => some (x * 4096 + y * 256 + z * 16 + w)
  | _, _, _, _ => none

def unescN (e : Char) : Option Nat :=
  if e = '"' then some 34
  else if e = '\\' then some 92
  else if e = 'n' then some 10
  else if e = 'r' then some 13
  else if e = 't' then some 9
  else if e = 'b' then some 8
  else if e = 'f' then some 12
  else none

/-- First decoding phase: undo `escChar` unit by unit, leaving surrogate
halves as raw code units. -/
def tokenizeEsc : List Char → Option (List Nat)
  | [] => some []
  | c :: r =>
    if c = '\\' then
      match r with
      | [] => none
      | e :: r2 =>
        if e = 'u' then
          match r2 with
          | a :: b :: c3 :: d :: r3 =>
            match hex4Val a b c3 d, tokenizeEsc r3 with
            | some n, some l => some (n :: l)
            | _, _ => none
          | _ => none
        else
          match unescN e, tokenizeEsc r2 with
          | some u, some l => some (u :: l)
          | _, _ => none
    else (tokenizeEsc r).map (fun l => c.toNat :: l)

/-- Second decoding phase: combine surrogate pairs back into codepoints. -/
def combineSurr : List Nat → Option (List Nat)
  | [] => some []
  | n :: t =>
    if 55296 ≤ n ∧ n < 56320 then
      match t with
      | m :: t2 =>
        if 56320 ≤ m ∧ m < 57344 then
          (combineSurr t2).map (fun l => (65536 + (n - 55296) * 1024 + (m - 56320)) :: l)
        else none
      | [] => none
    else if 56320 ≤ n ∧ n < 57344 then none
    else (combineSurr t).map (fun l => n :: l)

/-- UTF-16 code units of a character, as `\\u` escapes render them. -/
def codeUnits (c : Char) : List Nat :=
  if c.toNat < 65536 then [c.toNat]
  else [55296 + (c.toNat - 65536) / 1024, 56320 + (c.toNat - 65536) % 1024]

def rawCodes (s : List Char) : List Nat := s.flatMap codeUnits

/-- Scan a JSON-escaped region up to its closing unescaped quote, without
decoding: returns the raw region and the remainder after the quote. -/
def rawSpan : List Char → Option (List Char × List Char)
  | [] => none
  | c :: r =>
    if c = '"' then some ([], r)
    else if c = '\\' then
      match r with
      | [] => none
      | e :: r2 =>
        match rawSpan r2 with
        | some (a, b) => some ('\\' :: e :: a, b)
        | none => none
    else
      match rawSpan r with
      | some (a, b) => some (c :: a, b)
      | none => none

/-! ## Calendar correctness -/

theorem mdFromDoy_spec (lens : List Int) : ∀ (m doy : Int), 0 ≤ doy → doy < lens.sum →
    (∀ x ∈ lens, x ≤ 31) →
    sumFirst ((mdFromDoy m doy lens).1 - m) lens + ((mdFromDoy m doy lens).2 - 1) = doy ∧
    m ≤ (mdFromDoy m doy lens).1 ∧ (mdFromDoy m doy lens).1 < m + lens.length ∧
    1 ≤ (mdFromDoy m doy lens).2 ∧ (mdFromDoy m doy lens).2 ≤ 31 := by
  induction lens with
  | nil => intro m doy h0 h1 _; simp at h1; omega
  | cons len rest ih =>
    intro m doy h0 h1 hb
    by_cases hc : doy < len
    · simp only [mdFromDoy, if_pos hc]
      have hlen : len ≤ 31 := hb len (by simp)
      constructor
      · simp only [sumFirst]
        norm_num
      · simp only [List.length_cons]
        omega
    · simp only [mdFromDoy, if_neg hc]
      have hrest : ∀ x ∈ rest, x ≤ 31 := fun x hx => hb x (by simp [hx])
      have hsum : doy - len < rest.sum := by simp [List.sum_cons] at h1; omega
      have h0' : 0 ≤ doy - len := by omega
      obtain ⟨ha, hm1, hm2, hd1, hd2⟩ := ih (m + 1) (doy - len) h0' hsum hrest
      refine ⟨?_, by omega, by simpa [List.length_cons] using by omega, hd1, hd2⟩
      have hk : (mdFromDoy (m + 1) (doy - len) rest).1 - m =
          ((mdFromDoy (m + 1) (doy - len) rest).1 - (m + 1)) + 1 := by omega
      rw [hk]
      simp only [sumFirst]
      have hpos : ¬ ((mdFromDoy (m + 1) (doy - len) rest).1 - (m + 1) + 1 ≤ 0) := by omega
      rw [if_neg hpos]
      have he : (mdFromDoy (m + 1) (doy - len) rest).1 - (m + 1) + 1 - 1 =
          (mdFromDoy (m + 1) (doy - len) rest).1 - (m + 1) := by ring
      rw [he]
      omega

theorem monthLengths_sum (leap : Bool) :
    (monthLengths leap).sum = 365 + (if leap then 1 else 0) := by
  cases leap <;> decide

theorem monthLengths_le (leap : Bool) : ∀ x ∈ monthLengths leap, x ≤ 31 := by
  cases leap <;> decide

theorem daysUpTo_mono {a b : Int} (h : a ≤ b) : daysUpTo a ≤ daysUpTo b := by
  unfold daysUpTo; omega

theorem daysUpTo_succ (w : Int) :
    daysUpTo (w + 1) = daysUpTo w + 365 + (if isLeapB (w + 1) then 1 else 0) := by
  unfold daysUpTo isLeapB
  by_cases h4 : (w + 1) % 4 = 0 <;> by_cases h100 : (w + 1) % 100 = 0 <;>
    by_cases h400 : (w + 1) % 400 = 0 <;> simp [h4, h100, h400] <;> omega

theorem adjYear_bracket (n : Int) : ∀ (k : Nat) (y : Int),
    daysUpTo (y - k) ≤ n → n < daysUpTo (y + 1) →
    daysUpTo (adjYear n k y) ≤ n ∧ n < daysUpTo (adjYear n k y + 1) := by
  intro k
  induction k with
  | zero => intro y h1 h2; simp only [adjYear]; exact ⟨by simpa using h1, h2⟩
  | succ k ih =>
    intro y h1 h2
    by_cases hc : daysUpTo y ≤ n
    · simp only [adjYear, if_pos hc]; exact ⟨hc, h2⟩
    · simp only [adjYear, if_neg hc]
      apply ih
      · have he : (y : Int) - 1 - (k : Int) = y - ((k : Nat) + 1 : Nat) := by push_cast; ring
        rw [he]; exact h1
      · have he : (y : Int) - 1 + 1 = y := by ring
        rw [he]; omega

theorem yearOf_bracket (n : Int) (h0 : 0 ≤ n) (h1 : n < daysUpTo 10000) :
    daysUpTo (yearOf n) ≤ n ∧ n < daysUpTo (yearOf n + 1) := by
  apply adjYear_bracket
  · unfold daysUpTo; unfold daysUpTo at h1; omega
  · unfold daysUpTo; omega

theorem yearOf_range (n : Int) (h0 : 0 ≤ n) (h1 : n < daysUpTo 9999) :
    0 ≤ yearOf n ∧ yearOf n ≤ 9998 := by
  have hlt : n < daysUpTo 10000 := lt_of_lt_of_le h1 (daysUpTo_mono (by norm_num))
  obtain ⟨hb1, hb2⟩ := yearOf_bracket n h0 hlt
  constructor
  · by_contra hneg
    push_neg at hneg
    have hm : daysUpTo (yearOf n + 1) ≤ daysUpTo 0 := daysUpTo_mono (by omega)
    have hz : daysUpTo 0 = 0 := by decide
    omega
  · by_contra hneg
    push_neg at hneg
    have hm : daysUpTo 9999 ≤ daysUpTo (yearOf n) := daysUpTo_mono (by omega)
    omega

/-- Left-inverse property of the calendar conversion on the Python `datetime`
year range, together with the field bounds. -/
theorem civil_roundtrip (z : Int) (h0 : -719162 ≤ z) (h1 : z + 719162 < daysUpTo 9999) :
    daysFromCivil (civilFromDays z).1 (civilFromDays z).2.1 (civilFromDays z).2.2 = z ∧
    1 ≤ (civilFromDays z).1 ∧ (civilFromDays z).1 ≤ 9999 ∧
    1 ≤ (civilFromDays z).2.1 ∧ (civilFromDays z).2.1 ≤ 12 ∧
    1 ≤ (civilFromDays z).2.2 ∧ (civilFromDays z).2.2 ≤ 31 := by
  have hn0 : 0 ≤ z + 719162 := by omega
  have hlt : z + 719162 < daysUpTo 10000 := lt_of_lt_of_le h1 (daysUpTo_mono (by norm_num))
  obtain ⟨hb1, hb2⟩ := yearOf_bracket (z + 719162) hn0 hlt
  obtain ⟨hy0, hy1⟩ := yearOf_range (z + 719162) hn0 h1
  set w := yearOf (z + 719162) with hw
  set leap := isLeapB (w + 1) with hleap
  have hdoy0 : 0 ≤ z + 719162 - daysUpTo w := by omega
  have hsucc := daysUpTo_succ w
  rw [← hleap] at hsucc
  have hdoy1 : z + 719162 - daysUpTo w < (monthLengths leap).sum := by
    rw [monthLengths_sum leap]
    omega
  obtain ⟨ha, hm1, hm2, hd1, hd2⟩ :=
    mdFromDoy_spec (monthLengths leap) 1 (z + 719162 - daysUpTo w) hdoy0 hdoy1
      (monthLengths_le leap)
  have hlen : ((monthLengths leap).length : Int) = 12 := by cases leap <;> decide
  rcases hc : civilFromDays z with ⟨y, m, d⟩
  simp only [civilFromDays, monthDayOfDoy] at hc
  rw [← hw, ← hleap] at hc
  injection hc with hcy hcmd
  injection hcmd with hcm hcd
  subst hcy hcm hcd
  dsimp only
  simp only [daysFromCivil, daysBeforeMonth]
  have h11 : w + 1 - 1 = w := by ring
  rw [h11, ← hleap]
  refine ⟨by omega, by omega, by omega, by omega, by omega, by omega, by omega⟩

/-! ## Injectivity of the rendered forms -/

theorem asString_inj {l1 l2 : List Char} (h : l1.asString = l2.asString) : l1 = l2 :=
  congrArg String.data h

theorem digCh_toNat (k : Nat) (h : k < 10) : (digCh k).toNat = 48 + k := by
  interval_cases k <;> decide

theorem unpad_pad2 (n : Int) (h0 : 0 ≤ n) (h1 : n < 100) : unpadN (pad2 n) = n.toNat := by
  have k1 : n.toNat / 10 % 10 < 10 := Nat.mod_lt _ (by norm_num)
  have k2 : n.toNat % 10 < 10 := Nat.mod_lt _ (by norm_num)
  simp only [pad2, unpadN, List.foldl, digCh_toNat _ k1, digCh_toNat _ k2]
  omega

theorem unpad_pad4 (n : Int) (h0 : 0 ≤ n) (h1 : n < 10000) : unpadN (pad4 n) = n.toNat := by
  have k1 : n.toNat / 1000 % 10 < 10 := Nat.mod_lt _ (by norm_num)
  have k2 : n.toNat / 100 % 10 < 10 := Nat.mod_lt _ (by norm_num)
  have k3 : n.toNat / 10 % 10 < 10 := Nat.mod_lt _ (by norm_num)
  have k4 : n.toNat % 10 < 10 := Nat.mod_lt _ (by norm_num)
  simp only [pad4, unpadN, List.foldl, digCh_toNat _ k1, digCh_toNat _ k2, digCh_toNat _ k3,
    digCh_toNat _ k4]
  omega

theorem pad2_inj {a b : Int} (ha0 : 0 ≤ a) (ha1 : a < 100) (hb0 : 0 ≤ b) (hb1 : b < 100)
    (h : pad2 a = pad2 b) : a = b := by
  have hu := congrArg unpadN h
  rw [unpad_pad2 a ha0 ha1, unpad_pad2 b hb0 hb1] at hu
  omega

theorem pad4_inj {a b : Int} (ha0 : 0 ≤ a) (ha1 : a < 10000) (hb0 : 0 ≤ b) (hb1 : b < 10000)
    (h : pad4 a = pad4 b) : a = b := by
  have hu := congrArg unpadN h
  rw [unpad_pad4 a ha0 ha1, unpad_pad4 b hb0 hb1] at hu
  omega

theorem pad2_length (n : Int) : (pad2 n).length = 2 := rfl

theorem pad4_length (n : Int) : (pad4 n).length = 4 := rfl

theorem fmtDateL_length (day : Int) : (fmtDateL day).length = 10 := by
  simp [fmtDateL, pad4, pad2]

theorem timeOfL_length (s : Int) : (timeOfL s).length = 8 := by
  simp [timeOfL, pad2]

theorem fmtDateL_inj {z1 z2 : Int} (h1 : dayRangeOK z1) (h2 : dayRangeOK z2)
    (h : fmtDateL z1 = fmtDateL z2) : z1 = z2 := by
  obtain ⟨hrt1, hy1a, hy1b, hm1a, hm1b, hd1a, hd1b⟩ := civil_roundtrip z1 h1.1 h1.2
  obtain ⟨hrt2, hy2a, hy2b, hm2a, hm2b, hd2a, hd2b⟩ := civil_roundtrip z2 h2.1 h2.2
  unfold fmtDateL at h
  obtain ⟨hy, hrest⟩ := List.append_inj h (by rw [pad4_length, pad4_length])
  obtain ⟨hm, hrest2⟩ := List.append_inj (List.tail_eq_of_cons_eq hrest)
    (by rw [pad2_length, pad2_length])
  have hd := List.tail_eq_of_cons_eq hrest2
  have hy' := pad4_inj (by omega) (by omega) (by omega) (by omega) hy
  have hm' := pad2_inj (by omega) (by omega) (by omega) (by omega) hm
  have hd' := pad2_inj (by omega) (by omega) (by omega) (by omega) hd
  rw [← hrt1, ← hrt2, hy', hm', hd']

theorem timeOfL_inj {s1 s2 : Int} (h1 : 0 ≤ s1) (h1b : s1 < 86400) (h2 : 0 ≤ s2)
    (h2b : s2 < 86400) (h : timeOfL s1 = timeOfL s2) : s1 = s2 := by
  unfold timeOfL at h
  obtain ⟨hh, hrest⟩ := List.append_inj h (by rw [pad2_length, pad2_length])
  obtain ⟨hm, hrest2⟩ := List.append_inj (List.tail_eq_of_cons_eq hrest)
    (by rw [pad2_length, pad2_length])
  have hs := List.tail_eq_of_cons_eq hrest2
  have hh' := pad2_inj (by omega) (by omega) (by omega) (by omega) hh
  have hm' := pad2_inj (by omega) (by omega) (by omega) (by omega) hm
  have hs' := pad2_inj (by omega) (by omega) (by omega) (by omega) hs
  omega

theorem offsetL_inj {o1 o2 : Int} (hm1 : o1 % 60 = 0) (hr1 : -86400 < o1) (hr1b : o1 < 86400)
    (hm2 : o2 % 60 = 0) (hr2 : -86400 < o2) (hr2b : o2 < 86400)
    (h : offsetL o1 = offsetL o2) : o1 = o2 := by
  unfold offsetL at h
  by_cases hs1 : 0 ≤ o1 <;> by_cases hs2 : 0 ≤ o2
  · simp only [if_pos hs1, if_pos hs2] at h
    rw [if_pos hm1, if_pos hm2] at h
    have hrest := List.tail_eq_of_cons_eq h
    obtain ⟨hh, hmin⟩ := List.append_inj hrest (by rw [pad2_length, pad2_length])
    have hh' := pad2_inj (by omega) (by omega) (by omega) (by omega) hh
    have hmm := List.tail_eq_of_cons_eq hmin
    rw [List.append_nil, List.append_nil] at hmm
    have hm' := pad2_inj (by omega) (by omega) (by omega) (by omega) hmm
    omega
  · exfalso
    simp only [if_pos hs1, if_neg hs2] at h
    exact absurd (List.head_eq_of_cons_eq h) (by decide)
  · exfalso
    simp only [if_neg hs1, if_pos hs2] at h
    exact absurd (List.head_eq_of_cons_eq h) (by decide)
  · simp only [if_neg hs1, if_neg hs2] at h
    have hz1 : (-o1) % 60 = 0 := by omega
    have hz2 : (-o2) % 60 = 0 := by omega
    rw [if_pos hz1, if_pos hz2] at h
    have hrest := List.tail_eq_of_cons_eq h
    obtain ⟨hh, hmin⟩ := List.append_inj hrest (by rw [pad2_length, pad2_length])
    have hh' := pad2_inj (by omega) (by omega) (by omega) (by omega) hh
    have hmm := List.tail_eq_of_cons_eq hmin
    rw [List.append_nil, List.append_nil] at hmm
    have hm' := pad2_inj (by omega) (by omega) (by omega) (by omega) hmm
    omega

theorem isoAware_inj {a b : Aware} (ha : isoRangeOK a) (hb : isoRangeOK b)
    (h : isoAware a = isoAware b) : a.utc = b.utc ∧ a.off = b.off := by
  obtain ⟨hma, hra, hrb, hda⟩ := ha
  obtain ⟨hmb, hrbb, hrbc, hdb⟩ := hb
  have hl := asString_inj h
  unfold isoAwareL at hl
  obtain ⟨hdate, hrest⟩ := List.append_inj hl (by rw [fmtDateL_length, fmtDateL_length])
  obtain ⟨htime, hoff⟩ := List.append_inj (List.tail_eq_of_cons_eq hrest)
    (by rw [timeOfL_length, timeOfL_length])
  have hdays := fmtDateL_inj hda hdb hdate
  have hsecs := timeOfL_inj (Int.emod_nonneg _ (by norm_num))
    (Int.emod_lt_of_pos _ (by norm_num)) (Int.emod_nonneg _ (by norm_num))
    (Int.emod_lt_of_pos _ (by norm_num)) htime
  have hoffs := offsetL_inj hma hra hrb hmb hrbb hrbc hoff
  have hwall : wallSecs a = wallSecs b := by omega
  unfold wallSecs at hwall
  omega

/-! ## Injectivity of the JSON serialization -/

theorem string_data_inj {s1 s2 : String} (h : s1.data = s2.data) : s1 = s2 := by
  cases s1
  cases s2
  simp only at h
  rw [h]

theorem char_toNat_inj {a b : Char} (h : a.toNat = b.toNat) : a = b :=
  Char.ext (UInt32.ext h)

theorem char_valid_range (c : Char) :
    c.toNat < 55296 ∨ (57343 < c.toNat ∧ c.toNat < 1114112) := by
  have h := c.valid
  rcases h with h | h
  · left; exact h
  · right; exact h

theorem hexVal_hexCh (k : Nat) (h : k < 16) : hexVal (hexCh k) = some k := by
  interval_cases k <;> decide

theorem hex4Val_hex4 (n : Nat) (h : n < 65536) :
    hex4Val (hexCh (n / 4096 % 16)) (hexCh (n / 256 % 16)) (hexCh (n / 16 % 16))
      (hexCh (n % 16)) = some n := by
  rw [hex4Val, hexVal_hexCh _ (Nat.mod_lt _ (by norm_num)),
    hexVal_hexCh _ (Nat.mod_lt _ (by norm_num)), hexVal_hexCh _ (Nat.mod_lt _ (by norm_num)),
    hexVal_hexCh _ (Nat.mod_lt _ (by norm_num))]
  simp only [Option.some.injEq]
  omega

theorem tok_u (a b c d : Char) (n : Nat) (hh : hex4Val a b c d = some n) (t : List Char) :
    tokenizeEsc ('\\' :: 'u' :: a :: b :: c :: d :: t) =
      (tokenizeEsc t).map (fun l => n :: l) := by
  rw [tokenizeEsc.eq_def]
  cases htk : tokenizeEsc t <;> simp [hh, htk]

theorem tok_esc2 (e : Char) (he : ¬ e = 'u') (u : Nat) (hu : unescN e = some u)
    (t : List Char) : tokenizeEsc ('\\' :: e :: t) = (tokenizeEsc t).map (fun l => u :: l) := by
  rw [tokenizeEsc.eq_def]
  cases htk : tokenizeEsc t <;> simp [he, hu, htk]

theorem tok_plain (c : Char) (hc : ¬ c = '\\') (t : List Char) :
    tokenizeEsc (c :: t) = (tokenizeEsc t).map (fun l => c.toNat :: l) := by
  rw [tokenizeEsc.eq_def]
  simp [hc]

theorem tokenizeEsc_escChar (c : Char) (t : List Char) :
    tokenizeEsc (escChar c ++ t) = (tokenizeEsc t).map (fun l => codeUnits c ++ l) := by
  have hv := char_valid_range c
  by_cases h1 : c = '"'
  · subst h1
    rw [show escChar '"' = ['\\', '"'] from by decide]
    rw [show (['\\', '"'] : List Char) ++ t = '\\' :: '"' :: t from rfl]
    rw [tok_esc2 '"' (by decide) 34 (by decide) t,
      show codeUnits '"' = [34] from by decide]
    cases htk : tokenizeEsc t <;> simp [htk]
  by_cases h2 : c = '\\'
  · subst h2
    rw [show escChar '\\' = ['\\', '\\'] from by decide]
    rw [show (['\\', '\\'] : List Char) ++ t = '\\' :: '\\' :: t from rfl]
    rw [tok_esc2 '\\' (by decide) 92 (by decide) t,
      show codeUnits '\\' = [92] from by decide]
    cases htk : tokenizeEsc t <;> simp [htk]
  by_cases h3 : c = '\n'
  · subst h3
    rw [show escChar '\n' = ['\\', 'n'] from by decide]
    rw [show (['\\', 'n'] : List Char) ++ t = '\\' :: 'n' :: t from rfl]
    rw [tok_esc2 'n' (by decide) 10 (by decide) t,
      show codeUnits '\n' = [10] from by decide]
    cases htk : tokenizeEsc t <;> simp [htk]
  by_cases h4 : c = '\r'
  · subst h4
    rw [show escChar '\r' = ['\\', 'r'] from by decide]
    rw [show (['\\', 'r'] : List Char) ++ t = '\\' :: 'r' :: t from rfl]
    rw [tok_esc2 'r' (by decide) 13 (by decide) t,
      show codeUnits '\r' = [13] from by decide]
    cases htk : tokenizeEsc t <;> simp [htk]
  by_cases h5 : c = '\t'
  · subst h5
    rw [show escChar '\t' = ['\\', 't'] from by decide]
    rw [show (['\\', 't'] : List Char) ++ t = '\\' :: 't' :: t from rfl]
    rw [tok_esc2 't' (by decide) 9 (by decide) t,
      show codeUnits '\t' = [9] from by decide]
    cases htk : tokenizeEsc t <;> simp [htk]
  by_cases h6 : c.toNat = 8
  · have hc8 : c = '\x08' := char_toNat_inj (by rw [h6]; decide)
    subst hc8
    rw [show escChar '\x08' = ['\\', 'b'] from by decide]
    rw [show (['\\', 'b'] : List Char) ++ t = '\\' :: 'b' :: t from rfl]
    rw [tok_esc2 'b' (by decide) 8 (by decide) t,
      show codeUnits '\x08' = [8] from by decide]
    cases htk : tokenizeEsc t <;> simp [htk]
  by_cases h7 : c.toNat = 12
  · have hc12 : c = '\x0c' := char_toNat_inj (by rw [h7]; decide)
    subst hc12
    rw [show escChar '\x0c' = ['\\', 'f'] from by decide]
    rw [show (['\\', 'f'] : List Char) ++ t = '\\' :: 'f' :: t from rfl]
    rw [tok_esc2 'f' (by decide) 12 (by decide) t,
      show codeUnits '\x0c' = [12] from by decide]
    cases htk : tokenizeEsc t <;> simp [htk]
  by_cases h8 : c.toNat < 32 ∨ 126 < c.toNat
  · rw [escChar, if_neg h1, if_neg h2, if_neg h3, if_neg h4, if_neg h5, if_neg h6, if_neg h7,
      if_pos h8]
    unfold uescape
    by_cases h9 : c.toNat < 65536
    · rw [if_pos h9]
      rw [show ('\\' :: 'u' :: hex4 c.toNat) ++ t =
        '\\' :: 'u' :: hexCh (c.toNat / 4096 % 16) :: hexCh (c.toNat / 256 % 16) ::
          hexCh (c.toNat / 16 % 16) :: hexCh (c.toNat % 16) :: t from by simp [hex4]]
      rw [tok_u _ _ _ _ c.toNat (hex4Val_hex4 c.toNat h9) t]
      cases htk : tokenizeEsc t <;> simp [htk, codeUnits, h9]
    · rw [if_neg h9]
      have hhiv : 55296 + (c.toNat - 65536) / 1024 < 65536 := by omega
      have hlov : 56320 + (c.toNat - 65536) % 1024 < 65536 := by
        have hm := Nat.mod_lt (c.toNat - 65536) (show 0 < 1024 by norm_num)
        omega
      rw [show ('\\' :: 'u' :: hex4 (55296 + (c.toNat - 65536) / 1024)) ++
          ('\\' :: 'u' :: hex4 (56320 + (c.toNat - 65536) % 1024)) ++ t =
        '\\' :: 'u' :: hexCh ((55296 + (c.toNat - 65536) / 1024) / 4096 % 16) ::
          hexCh ((55296 + (c.toNat - 65536) / 1024) / 256 % 16) ::
          hexCh ((55296 + (c.toNat - 65536) / 1024) / 16 % 16) ::
          hexCh ((55296 + (c.toNat - 65536) / 1024) % 16) ::
          '\\' :: 'u' :: hexCh ((56320 + (c.toNat - 65536) % 1024) / 4096 % 16) ::
          hexCh ((56320 + (c.toNat - 65536) % 1024) / 256 % 16) ::
          hexCh ((56320 + (c.toNat - 65536) % 1024) / 16 % 16) ::
          hexCh ((56320 + (c.toNat - 65536) % 1024) % 16) :: t from by simp [hex4]]
      rw [tok_u _ _ _ _ _ (hex4Val_hex4 _ hhiv)]
      rw [tok_u _ _ _ _ _ (hex4Val_hex4 _ hlov)]
      cases htk : tokenizeEsc t <;> simp [htk, codeUnits, h9]
  · rw [escChar, if_neg h1, if_neg h2, if_neg h3, if_neg h4, if_neg h5, if_neg h6, if_neg h7,
      if_neg h8]
    have h9 : c.toNat < 65536 := by omega
    rw [show ([c] : List Char) ++ t = c :: t from rfl, tok_plain c h2 t]
    cases htk : tokenizeEsc t <;> simp [htk, codeUnits, h9]

theorem tokenizeEsc_escape (s : List Char) : tokenizeEsc (escapeL s) = some (rawCodes s) := by
  induction s with
  | nil => rw [show escapeL [] = [] from rfl, tokenizeEsc.eq_def]; rfl
  | cons c s ih =>
    rw [show escapeL (c :: s) = escChar c ++ escapeL s from rfl, tokenizeEsc_escChar, ih]
    rw [show rawCodes (c :: s) = codeUnits c ++ rawCodes s from rfl]
    rfl

theorem comb_plain (n : Nat) (h1 : ¬ (55296 ≤ n ∧ n < 56320)) (h2 : ¬ (56320 ≤ n ∧ n < 57344))
    (t : List Nat) : combineSurr (n :: t) = (combineSurr t).map (fun l => n :: l) := by
  rw [combineSurr.eq_def]
  cases htk : combineSurr t <;> simp [h1, h2, htk]

theorem comb_pair (n m : Nat) (h1 : 55296 ≤ n ∧ n < 56320) (h2 : 56320 ≤ m ∧ m < 57344)
    (t : List Nat) : combineSurr (n :: m :: t) =
      (combineSurr t).map (fun l => (65536 + (n - 55296) * 1024 + (m - 56320)) :: l) := by
  rw [combineSurr.eq_def]
  cases htk : combineSurr t <;> simp [h1, h2, htk]

theorem combineSurr_rawCodes (s : List Char) :
    combineSurr (rawCodes s) = some (s.map Char.toNat) := by
  induction s with
  | nil => rfl
  | cons c s ih =>
    have hv := char_valid_range c
    rw [show rawCodes (c :: s) = codeUnits c ++ rawCodes s from rfl]
    by_cases h9 : c.toNat < 65536
    · rw [show codeUnits c ++ rawCodes s = c.toNat :: rawCodes s from by simp [codeUnits, h9]]
      rw [comb_plain c.toNat (by omega) (by omega), ih]
      rfl
    · have hm := Nat.mod_lt (c.toNat - 65536) (show 0 < 1024 by norm_num)
      rw [show codeUnits c ++ rawCodes s = (55296 + (c.toNat - 65536) / 1024) ::
        (56320 + (c.toNat - 65536) % 1024) :: rawCodes s from by simp [codeUnits, h9]]
      rw [comb_pair _ _ (by omega) (by omega), ih]
      rw [show 65536 + (55296 + (c.toNat - 65536) / 1024 - 55296) * 1024 +
          (56320 + (c.toNat - 65536) % 1024 - 56320) = c.toNat from by omega]
      rfl

theorem escapeL_inj {s1 s2 : List Char} (h : escapeL s1 = escapeL s2) : s1 = s2 := by
  have h1 := tokenizeEsc_escape s1
  have h2 := tokenizeEsc_escape s2
  rw [h, h2] at h1
  have hraw : rawCodes s1 = rawCodes s2 := by
    have := Option.some.inj h1
    exact this.symm
  have hc1 := combineSurr_rawCodes s1
  have hc2 := combineSurr_rawCodes s2
  rw [hraw, hc2] at hc1
  have hmap : s1.map Char.toNat = s2.map Char.toNat := (Option.some.inj hc1).symm
  exact List.map_injective_iff.mpr (fun a b hab => char_toNat_inj hab) hmap

/-! ## Unambiguous parsing of the serialized payload -/

theorem rawSpan_quote (t : List Char) : rawSpan ('"' :: t) = some ([], t) := by
  rw [rawSpan.eq_def]
  simp

theorem rawSpan_esc (e : Char) (t : List Char) :
    rawSpan ('\\' :: e :: t) = (rawSpan t).map (fun p => ('\\' :: e :: p.1, p.2)) := by
  rw [rawSpan.eq_def]
  cases hs : rawSpan t <;> simp [hs]

theorem rawSpan_other (c : Char) (h1 : ¬ c = '"') (h2 : ¬ c = '\\') (t : List Char) :
    rawSpan (c :: t) = (rawSpan t).map (fun p => (c :: p.1, p.2)) := by
  rw [rawSpan.eq_def]
  cases hs : rawSpan t <;> simp [h1, h2, hs]

theorem hexCh_ne (k : Nat) (h : k < 16) : ¬ hexCh k = '"' ∧ ¬ hexCh k = '\\' := by
  interval_cases k <;> exact ⟨by decide, by decide⟩

theorem rawSpan_escape (s : List Char) (r : List Char) :
    rawSpan (escapeL s ++ ('"' :: r)) = some (escapeL s, r) := by
  induction s with
  | nil => rw [show escapeL [] = [] from rfl, List.nil_append, rawSpan_quote]
  | cons c s ih =>
    rw [show escapeL (c :: s) = escChar c ++ escapeL s from rfl, List.append_assoc]
    have hv := char_valid_range c
    by_cases h1 : c = '"'
    · subst h1
      rw [show escChar '"' = ['\\', '"'] from by decide]
      rw [show (['\\', '"'] : List Char) ++ (escapeL s ++ ('"' :: r)) =
        '\\' :: '"' :: (escapeL s ++ ('"' :: r)) from rfl, rawSpan_esc, ih]
      rfl
    by_cases h2 : c = '\\'
    · subst h2
      rw [show escChar '\\' = ['\\', '\\'] from by decide]
      rw [show (['\\', '\\'] : List Char) ++ (escapeL s ++ ('"' :: r)) =
        '\\' :: '\\' :: (escapeL s ++ ('"' :: r)) from rfl, rawSpan_esc, ih]
      rfl
    by_cases h3 : c = '\n'
    · subst h3
      rw [show escChar '\n' = ['\\', 'n'] from by decide]
      rw [show (['\\', 'n'] : List Char) ++ (escapeL s ++ ('"' :: r)) =
        '\\' :: 'n' :: (escapeL s ++ ('"' :: r)) from rfl, rawSpan_esc, ih]
      rfl
    by_cases h4 : c = '\r'
    · subst h4
      rw [show escChar '\r' = ['\\', 'r'] from by decide]
      rw [show (['\\', 'r'] : List Char) ++ (escapeL s ++ ('"' :: r)) =
        '\\' :: 'r' :: (escapeL s ++ ('"' :: r)) from rfl, rawSpan_esc, ih]
      rfl
    by_cases h5 : c = '\t'
    · subst h5
      rw [show escChar '\t' = ['\\', 't'] from by decide]
      rw [show (['\\', 't'] : List Char) ++ (escapeL s ++ ('"' :: r)) =
        '\\' :: 't' :: (escapeL s ++ ('"' :: r)) from rfl, rawSpan_esc, ih]
      rfl
    by_cases h6 : c.toNat = 8
    · have hc8 : c = '\x08' := char_toNat_inj (by rw [h6]; decide)
      subst hc8
      rw [show escChar '\x08' = ['\\', 'b'] from by decide]
      rw [show (['\\', 'b'] : List Char) ++ (escapeL s ++ ('"' :: r)) =
        '\\' :: 'b' :: (escapeL s ++ ('"' :: r)) from rfl, rawSpan_esc, ih]
      rfl
    by_cases h7 : c.toNat = 12
    · have hc12 : c = '\x0c' := char_toNat_inj (by rw [h7]; decide)
      subst hc12
      rw [show escChar '\x0c' = ['\\', 'f'] from by decide]
      rw [show (['\\', 'f'] : List Char) ++ (escapeL s ++ ('"' :: r)) =
        '\\' :: 'f' :: (escapeL s ++ ('"' :: r)) from rfl, rawSpan_esc, ih]
      rfl
    by_cases h8 : c.toNat < 32 ∨ 126 < c.toNat
    · rw [escChar, if_neg h1, if_neg h2, if_neg h3, if_neg h4, if_neg h5, if_neg h6, if_neg h7,
        if_pos h8]
      unfold uescape
      by_cases h9 : c.toNat < 65536
      · rw [if_pos h9]
        obtain ⟨hq1, hb1⟩ := hexCh_ne (c.toNat / 4096 % 16) (Nat.mod_lt _ (by norm_num))
        obtain ⟨hq2, hb2⟩ := hexCh_ne (c.toNat / 256 % 16) (Nat.mod_lt _ (by norm_num))
        obtain ⟨hq3, hb3⟩ := hexCh_ne (c.toNat / 16 % 16) (Nat.mod_lt _ (by norm_num))
        obtain ⟨hq4, hb4⟩ := hexCh_ne (c.toNat % 16) (Nat.mod_lt _ (by norm_num))
        rw [show ('\\' :: 'u' :: hex4 c.toNat) ++ (escapeL s ++ ('"' :: r)) =
          '\\' :: 'u' :: hexCh (c.toNat / 4096 % 16) :: hexCh (c.toNat / 256 % 16) ::
            hexCh (c.toNat / 16 % 16) :: hexCh (c.toNat % 16) :: (escapeL s ++ ('"' :: r))
          from by simp [hex4]]
        rw [rawSpan_esc, rawSpan_other _ hq1 hb1, rawSpan_other _ hq2 hb2,
          rawSpan_other _ hq3 hb3, rawSpan_other _ hq4 hb4, ih]
        simp [hex4]
      · rw [if_neg h9]
        have hm := Nat.mod_lt (c.toNat - 65536) (show 0 < 1024 by norm_num)
        obtain ⟨hq1, hb1⟩ := hexCh_ne ((55296 + (c.toNat - 65536) / 1024) / 4096 % 16)
          (Nat.mod_lt _ (by norm_num))
        obtain ⟨hq2, hb2⟩ := hexCh_ne ((55296 + (c.toNat - 65536) / 1024) / 256 % 16)
          (Nat.mod_lt _ (by norm_num))
        obtain ⟨hq3, hb3⟩ := hexCh_ne ((55296 + (c.toNat - 65536) / 1024) / 16 % 16)
          (Nat.mod_lt _ (by norm_num))
        obtain ⟨hq4, hb4⟩ := hexCh_ne ((55296 + (c.toNat - 65536) / 1024) % 16)
          (Nat.mod_lt _ (by norm_num))
        obtain ⟨hq5, hb5⟩ := hexCh_ne ((56320 + (c.toNat - 65536) % 1024) / 4096 % 16)
          (Nat.mod_lt _ (by norm_num))
        obtain ⟨hq6, hb6⟩ := hexCh_ne ((56320 + (c.toNat - 65536) % 1024) / 256 % 16)
          (Nat.mod_lt _ (by norm_num))
        obtain ⟨hq7, hb7⟩ := hexCh_ne ((56320 + (c.toNat - 65536) % 1024) / 16 % 16)
          (Nat.mod_lt _ (by norm_num))
        obtain ⟨hq8, hb8⟩ := hexCh_ne ((56320 + (c.toNat - 65536) % 1024) % 16)
          (Nat.mod_lt _ (by norm_num))
        rw [show ('\\' :: 'u' :: hex4 (55296 + (c.toNat - 65536) / 1024)) ++
            ('\\' :: 'u' :: hex4 (56320 + (c.toNat - 65536) % 1024)) ++
            (escapeL s ++ ('"' :: r)) =
          '\\' :: 'u' :: hexCh ((55296 + (c.toNat - 65536) / 1024) / 4096 % 16) ::
            hexCh ((55296 + (c.toNat - 65536) / 1024) / 256 % 16) ::
            hexCh ((55296 + (c.toNat - 65536) / 1024) / 16 % 16) ::
            hexCh ((55296 + (c.toNat - 65536) / 1024) % 16) ::
            '\\' :: 'u' :: hexCh ((56320 + (c.toNat - 65536) % 1024) / 4096 % 16) ::
            hexCh ((56320 + (c.toNat - 65536) % 1024) / 256 % 16) ::
            hexCh ((56320 + (c.toNat - 65536) % 1024) / 16 % 16) ::
            hexCh ((56320 + (c.toNat - 65536) % 1024) % 16) :: (escapeL s ++ ('"' :: r))
          from by simp [hex4]]
        rw [rawSpan_esc, rawSpan_other _ hq1 hb1, rawSpan_other _ hq2 hb2,
          rawSpan_other _ hq3 hb3, rawSpan_other _ hq4 hb4, rawSpan_esc,
          rawSpan_other _ hq5 hb5, rawSpan_other _ hq6 hb6, rawSpan_other _ hq7 hb7,
          rawSpan_other _ hq8 hb8, ih]
        simp [hex4]
    · rw [escChar, if_neg h1, if_neg h2, if_neg h3, if_neg h4, if_neg h5, if_neg h6, if_neg h7,
        if_neg h8]
      rw [show ([c] : List Char) ++ (escapeL s ++ ('"' :: r)) = c :: (escapeL s ++ ('"' :: r))
        from rfl, rawSpan_other c h1 h2, ih]
      rfl

theorem jsonStrL_align {s1 s2 : String} {r1 r2 : List Char}
    (h : jsonStrL s1 ++ r1 = jsonStrL s2 ++ r2) : s1 = s2 ∧ r1 = r2 := by
  have hn : ∀ (s : String) (r : List Char),
      jsonStrL s ++ r = '"' :: (escapeL s.data ++ ('"' :: r)) := by
    intro s r
    simp [jsonStrL]
  rw [hn, hn] at h
  have ht := List.tail_eq_of_cons_eq h
  have h1 := rawSpan_escape s1.data r1
  rw [ht, rawSpan_escape s2.data r2] at h1
  have hp := Option.some.inj h1
  have he : escapeL s2.data = escapeL s1.data := congrArg Prod.fst hp
  have hr : r2 = r1 := congrArg Prod.snd hp
  exact ⟨string_data_inj (escapeL_inj he.symm), hr.symm⟩

theorem jsonListBody_align : ∀ (l1 l2 : List String) (r1 r2 : List Char),
    jsonListBody l1 ++ r1 = jsonListBody l2 ++ r2 → l1 = l2 ∧ r1 = r2 := by
  intro l1
  induction l1 with
  | nil =>
    intro l2 r1 r2 h
    cases l2 with
    | nil =>
      simp only [jsonListBody, List.cons_append, List.nil_append, List.cons.injEq] at h
      exact ⟨rfl, h.2⟩
    | cons s2 t2 =>
      exfalso
      cases t2 <;>
        simp [jsonListBody, jsonStrL, List.cons_append, List.append_assoc] at h
  | cons s1 t1 ih =>
    intro l2 r1 r2 h
    cases l2 with
    | nil =>
      exfalso
      cases t1 <;>
        simp [jsonListBody, jsonStrL, List.cons_append, List.append_assoc] at h
    | cons s2 t2 =>
      cases t1 with
      | nil =>
        cases t2 with
        | nil =>
          simp only [jsonListBody, List.append_assoc, List.cons_append, List.nil_append] at h
          obtain ⟨hs, hr⟩ := jsonStrL_align h
          simp only [List.cons.injEq] at hr
          exact ⟨by rw [hs], hr.2⟩
        | cons s3 t3 =>
          exfalso
          simp only [jsonListBody, List.append_assoc, List.cons_append, List.nil_append] at h
          obtain ⟨hs, hr⟩ := jsonStrL_align h
          simp only [List.cons.injEq] at hr
          exact absurd hr.1 (by decide)
      | cons s1b t1b =>
        cases t2 with
        | nil =>
          exfalso
          simp only [jsonListBody, List.append_assoc, List.cons_append, List.nil_append] at h
          obtain ⟨hs, hr⟩ := jsonStrL_align h
          simp only [List.cons.injEq] at hr
          exact absurd hr.1 (by decide)
        | cons s3 t3 =>
          simp only [jsonListBody, List.append_assoc, List.cons_append, List.nil_append] at h
          obtain ⟨hs, hr⟩ := jsonStrL_align h
          simp only [List.cons.injEq, true_and] at hr
          obtain ⟨hteq, hreq⟩ := ih (s3 :: t3) r1 r2 hr
          exact ⟨by rw [hs, hteq], hreq⟩

theorem jsonListL_align {l1 l2 : List String} {r1 r2 : List Char}
    (h : jsonListL l1 ++ r1 = jsonListL l2 ++ r2) : l1 = l2 ∧ r1 = r2 := by
  simp only [jsonListL, List.cons_append, List.cons.injEq, true_and] at h
  exact jsonListBody_align l1 l2 r1 r2 h

theorem jsonOfGTimeL_align {g1 g2 : GTime} {r1 r2 : List Char}
    (h : jsonOfGTimeL g1 ++ r1 = jsonOfGTimeL g2 ++ r2) : g1 = g2 ∧ r1 = r2 := by
  cases g1 with
  | date s1 =>
    cases g2 with
    | date s2 =>
      simp only [jsonOfGTimeL, List.cons_append, List.append_assoc, List.cons.injEq,
        true_and] at h
      obtain ⟨hs, hr⟩ := jsonStrL_align h
      simp only [List.cons_append, List.nil_append, List.cons.injEq, true_and] at hr
      exact ⟨by rw [hs], hr⟩
    | dateTime t2 z2 =>
      exfalso
      simp only [jsonOfGTimeL, List.cons_append, List.append_assoc, List.cons.injEq,
        true_and] at h
      exact absurd h.1 (by decide)
  | dateTime t1 z1 =>
    cases g2 with
    | date s2 =>
      exfalso
      simp only [jsonOfGTimeL, List.cons_append, List.append_assoc, List.cons.injEq,
        true_and] at h
      exact absurd h.1 (by decide)
    | dateTime t2 z2 =>
      simp only [jsonOfGTimeL, List.cons_append, List.append_assoc, List.cons.injEq,
        true_and] at h
      obtain ⟨ht, hr⟩ := jsonStrL_align h
      simp only [List.cons_append, List.nil_append, List.cons.injEq, true_and] at hr
      obtain ⟨hz, hr2⟩ := jsonStrL_align hr
      simp only [List.cons_append, List.nil_append, List.cons.injEq, true_and] at hr2
      exact ⟨by rw [ht, hz], hr2⟩

theorem jsonOfGTime_inj {g1 g2 : GTime} (h : jsonOfGTime g1 = jsonOfGTime g2) : g1 = g2 := by
  have hl : jsonOfGTimeL g1 = jsonOfGTimeL g2 := asString_inj h
  have happ : jsonOfGTimeL g1 ++ [] = jsonOfGTimeL g2 ++ [] := by
    rw [List.append_nil, List.append_nil, hl]
  exact (jsonOfGTimeL_align happ).1

/-- The serialized payload determines every field. -/
theorem fpPayloadL_inj {su1 de1 lo1 st1 et1 rr1 : String} {ex1 rd1 : List String}
    {su2 de2 lo2 st2 et2 rr2 : String} {ex2 rd2 : List String}
    (h : fpPayloadL su1 de1 lo1 st1 et1 rr1 ex1 rd1 = fpPayloadL su2 de2 lo2 st2 et2 rr2 ex2 rd2) :
    su1 = su2 ∧ de1 = de2 ∧ lo1 = lo2 ∧ st1 = st2 ∧ et1 = et2 ∧ rr1 = rr2 ∧
      ex1 = ex2 ∧ rd1 = rd2 := by
  simp only [fpPayloadL, List.cons.injEq, true_and] at h
  obtain ⟨hde, h⟩ := jsonStrL_align h
  simp only [List.cons.injEq, true_and] at h
  obtain ⟨het, h⟩ := jsonStrL_align h
  simp only [List.cons.injEq, true_and] at h
  obtain ⟨hex, h⟩ := jsonListL_align h
  simp only [List.cons.injEq, true_and] at h
  obtain ⟨hlo, h⟩ := jsonStrL_align h
  simp only [List.cons.injEq, true_and] at h
  obtain ⟨hrd, h⟩ := jsonListL_align h
  simp only [List.cons.injEq, true_and] at h
  obtain ⟨hrr, h⟩ := jsonStrL_align h
  simp only [List.cons.injEq, true_and] at h
  obtain ⟨hsu, h⟩ := jsonStrL_align h
  simp only [List.cons.injEq, true_and] at h
  obtain ⟨hst, _⟩ := jsonStrL_align h
  exact ⟨hsu, hde, hlo, hst, het, hrr, hex, hrd⟩

/-! ## Reconciler lemmas -/

theorem alookup_cons {β : Type} (k : String) (kv : String × β) (t : List (String × β)) :
    alookup k (kv :: t) = if kv.1 = k then some kv.2 else alookup k t := rfl

theorem alookup_eq_none {β : Type} (k : String) :
    ∀ l : List (String × β), k ∉ l.map Prod.fst → alookup k l = none := by
  intro l
  induction l with
  | nil => intro _; rfl
  | cons kv t ih =>
    intro h
    simp only [List.map_cons, List.mem_cons] at h
    push_neg at h
    rw [alookup_cons, if_neg (fun he => h.1 he.symm)]
    exact ih h.2

theorem opsFor_append (uid : String) (a b : List Op) :
    opsFor uid (a ++ b) = opsFor uid a ++ opsFor uid b := by
  unfold opsFor
  exact List.filter_append a b

theorem opsFor_upsert_none (uid : String) (existing : List (String × Stored)) :
    ∀ src : List (String × GEvent), alookup uid src = none →
      opsFor uid (upsertOps src existing) = [] := by
  intro src
  induction src with
  | nil => intro _; rfl
  | cons kv t ih =>
    intro h
    rw [alookup_cons] at h
    by_cases hk : kv.1 = uid
    · rw [if_pos hk] at h; exact absurd h (by simp)
    · rw [if_neg hk] at h
      have hstep : upsertOps (kv :: t) existing =
          (match alookup kv.1 existing with
            | some ex => if ex.fp = some kv.2.fp then [] else [Op.patch kv.1 ex.id kv.2]
            | none => [Op.insert kv.1 kv.2]) ++ upsertOps t existing := rfl
      rw [hstep, opsFor_append, ih h]
      rcases halo : alookup kv.1 existing with _ | ex
      · simp [opsFor, opUid, hk]
      · rcases hfp : decide (ex.fp = some kv.2.fp) with _ | _
        · have hfp' : ¬ ex.fp = some kv.2.fp := of_decide_eq_false hfp
          simp [opsFor, opUid, hk, hfp']
        · have hfp' : ex.fp = some kv.2.fp := of_decide_eq_true hfp
          simp [opsFor, opUid, hfp']

theorem opsFor_delete_none (uid : String) (src : List (String × GEvent)) :
    ∀ existing : List (String × Stored), alookup uid existing = none →
      opsFor uid (deleteOps src existing) = [] := by
  intro existing
  induction existing with
  | nil => intro _; rfl
  | cons kv t ih =>
    intro h
    rw [alookup_cons] at h
    by_cases hk : kv.1 = uid
    · rw [if_pos hk] at h; exact absurd h (by simp)
    · rw [if_neg hk] at h
      have hstep : deleteOps src (kv :: t) =
          (match alookup kv.1 src with
            | some _ => []
            | none => [Op.delete kv.1 kv.2.id]) ++ deleteOps src t := rfl
      rw [hstep, opsFor_append, ih h]
      rcases halo : alookup kv.1 src with _ | res
      · simp [opsFor, opUid, hk]
      · simp [opsFor, opUid]

theorem opsFor_upsertOps (uid : String) (existing : List (String × Stored)) :
    ∀ src : List (String × GEvent), (src.map Prod.fst).Nodup →
      opsFor uid (upsertOps src existing) =
        (match alookup uid src with
          | none => []
          | some res =>
            match alookup uid existing with
            | some ex => if ex.fp = some res.fp then [] else [Op.patch uid ex.id res]
            | none => [Op.insert uid res]) := by
  intro src
  induction src with
  | nil => intro _; rfl
  | cons kv t ih =>
    intro hnd
    simp only [List.map_cons, List.nodup_cons] at hnd
    have hstep : upsertOps (kv :: t) existing =
        (match alookup kv.1 existing with
          | some ex => if ex.fp = some kv.2.fp then [] else [Op.patch kv.1 ex.id kv.2]
          | none => [Op.insert kv.1 kv.2]) ++ upsertOps t existing := rfl
    rw [hstep, opsFor_append]
    by_cases hk : kv.1 = uid
    · subst hk
      rw [opsFor_upsert_none kv.1 existing t (alookup_eq_none kv.1 t hnd.1)]
      rw [alookup_cons, if_pos rfl]
      rcases halo : alookup kv.1 existing with _ | ex
      · simp [opsFor, opUid]
      · by_cases hfp : ex.fp = some kv.2.fp
        · simp [opsFor, opUid, hfp]
        · simp [opsFor, opUid, hfp]
    · rw [alookup_cons, if_neg hk, ih hnd.2]
      rcases halo : alookup kv.1 existing with _ | ex
      · simp [opsFor, opUid, hk]
      · by_cases hfp : ex.fp = some kv.2.fp
        · simp [opsFor, opUid, hfp]
        · simp [opsFor, opUid, hk, hfp]

theorem opsFor_deleteOps (uid : String) (src : List (String × GEvent)) :
    ∀ existing : List (String × Stored), (existing.map Prod.fst).Nodup →
      opsFor uid (deleteOps src existing) =
        (match alookup uid existing with
          | none => []
          | some ex =>
            match alookup uid src with
            | some _ => []
            | none => [Op.delete uid ex.id]) := by
  intro existing
  induction existing with
  | nil => intro _; rfl
  | cons kv t ih =>
    intro hnd
    simp only [List.map_cons, List.nodup_cons] at hnd
    have hstep : deleteOps src (kv :: t) =
        (match alookup kv.1 src with
          | some _ => []
          | none => [Op.delete kv.1 kv.2.id]) ++ deleteOps src t := rfl
    rw [hstep, opsFor_append]
    by_cases hk : kv.1 = uid
    · subst hk
      rw [opsFor_delete_none kv.1 src t (alookup_eq_none kv.1 t hnd.1)]
      rw [alookup_cons, if_pos rfl]
      rcases halo : alookup kv.1 src with _ | res
      · simp [opsFor, opUid]
      · simp [opsFor, opUid]
    · rw [alookup_cons, if_neg hk, ih hnd.2]
      rcases halo : alookup kv.1 src with _ | res
      · simp [opsFor, opUid, hk]
      · simp [opsFor, opUid]

theorem delete_mem {uid : String} {ex : Stored} (src : List (String × GEvent))
    (existing : List (String × Stored)) (hmem : (uid, ex) ∈ existing)
    (habs : alookup uid src = none) : Op.delete uid ex.id ∈ deleteOps src existing := by
  unfold deleteOps
  rw [List.mem_flatMap]
  refine ⟨(uid, ex), hmem, ?_⟩
  rw [habs]
  simp

/-! ## Snapshot lemmas -/

theorem keptSnapshot_drop (env : Env) (nowUtc : Int) (ev : VEvent)
    (hkeep : keepEvent env nowUtc ev = false) (pre post : List VEvent) :
    keptSnapshot env nowUtc (pre ++ ev :: post) = keptSnapshot env nowUtc (pre ++ post) := by
  unfold keptSnapshot
  rw [List.foldl_append, List.foldl_append, List.foldl_cons]
  congr 1
  unfold snapStep
  rw [hkeep]
  simp

theorem dictSet_nodup {β : Type} (l : List (String × β)) (k : String) (v : β)
    (h : (l.map Prod.fst).Nodup) : ((dictSet l k v).map Prod.fst).Nodup := by
  unfold dictSet
  by_cases hc : k ∈ l.map Prod.fst
  · rw [if_pos hc]
    have hkeys : (l.map (fun kv => if kv.1 = k then (k, v) else kv)).map Prod.fst =
        l.map Prod.fst := by
      rw [List.map_map]
      apply List.map_congr_left
      intro kv _
      by_cases hkv : kv.1 = k
      · simp [hkv]
      · simp [hkv]
    rw [hkeys]
    exact h
  · rw [if_neg hc, List.map_append]
    simp only [List.map_cons, List.map_nil]
    rw [List.nodup_append]
    refine ⟨h, List.nodup_singleton k, ?_⟩
    intro a ha hb
    simp only [List.mem_singleton] at hb
    subst hb
    exact hc ha

theorem snapStep_nodup (env : Env) (nowUtc : Int) (acc : List (String × GEvent)) (ev : VEvent)
    (h : (acc.map Prod.fst).Nodup) : ((snapStep env nowUtc acc ev).map Prod.fst).Nodup := by
  unfold snapStep
  by_cases hk : keepEvent env nowUtc ev
  · rw [if_pos hk]
    rcases hg : to_gcal_resource env ev with _ | p
    · exact h
    · exact dictSet_nodup acc p.1 p.2 h
  · rw [if_neg hk]
    exact h

theorem keptSnapshot_nodup (env : Env) (nowUtc : Int) (cal : List VEvent) :
    ((keptSnapshot env nowUtc cal).map Prod.fst).Nodup := by
  unfold keptSnapshot
  have hgen : ∀ (l : List VEvent) (acc : List (String × GEvent)), (acc.map Prod.fst).Nodup →
      ((l.foldl (snapStep env nowUtc) acc).map Prod.fst).Nodup := by
    intro l
    induction l with
    | nil => intro acc h; exact h
    | cons ev t ih =>
      intro acc h
      rw [List.foldl_cons]
      exact ih _ (snapStep_nodup env nowUtc acc ev h)
  exact hgen cal [] (by simp)

/-! ## Canonicalizer lemmas -/

theorem normalize_dt_fst (env : Env) (v : DTValue) (s : Option String) (t : TzArg) :
    (normalize_dt env v s t).1 = isDateV v := by
  cases v <;> rfl

theorem isDateG_gtimeOf (b : Bool) (a : Aware) (z : String) : isDateG (gtimeOf b a z) = b := by
  cases b <;> rfl

theorem canonTimes_flags (env : Env) (tz : String) (dsv : DTValue) (stz : Option String)
    (de : Option (DTValue × Option String)) (du : Option Int)
    (h : de = none ∨ ∃ dev dtz, de = some (dev, dtz) ∧ isDateV dev = isDateV dsv) :
    (canonTimes env tz dsv stz de du).2.1 = (canonTimes env tz dsv stz de du).1.1 := by
  rcases h with h | ⟨dev, dtz, hde, hflag⟩
  · subst h
    rcases du with _ | d
    · rfl
    · by_cases hd : d = 0 <;> simp [canonTimes, hd]
  · subst hde
    show (normalize_dt env dev dtz (TzArg.zoneObj tz)).1 =
      (normalize_dt env dsv stz (TzArg.zoneObj tz)).1
    rw [normalize_dt_fst, normalize_dt_fst, hflag]

theorem canonTimes_default_end (env : Env) (tz : String) (dsv : DTValue) (stz : Option String) :
    (canonTimes env tz dsv stz none none).2.1 = (canonTimes env tz dsv stz none none).1.1 ∧
    (canonTimes env tz dsv stz none none).2.2.utc =
      (canonTimes env tz dsv stz none none).1.2.utc +
        (if (canonTimes env tz dsv stz none none).1.1 then 86400 else 3600) := by
  exact ⟨rfl, by simp [canonTimes, astz, addSecs]⟩

theorem to_gcal_uid (env : Env) (ev : VEvent) (ds : DTValue × Option String)
    (h : ev.dtstart = some ds) :
    identityOf env ev = some (match ev.recurrenceId with
      | some rid => ev.uid ++ "::" ++ isoAware (normalize_dt env rid.1 rid.2 TzArg.noArg).2
      | none => ev.uid) := by
  unfold identityOf to_gcal_resource
  rw [h]
  rfl

theorem to_gcal_times (env : Env) (ev : VEvent) (ds : DTValue × Option String)
    (h : ev.dtstart = some ds) :
    (to_gcal_resource env ev).map (fun p => (p.2.start, p.2.endTime)) =
      some (gtimeOf (canonTimes env (map_tzid env ds.2) ds.1 ds.2 ev.dtend ev.duration).1.1
          (canonTimes env (map_tzid env ds.2) ds.1 ds.2 ev.dtend ev.duration).1.2
          (map_tzid env ds.2),
        gtimeOf (canonTimes env (map_tzid env ds.2) ds.1 ds.2 ev.dtend ev.duration).2.1
          (canonTimes env (map_tzid env ds.2) ds.1 ds.2 ev.dtend ev.duration).2.2
          (map_tzid env ds.2)) := by
  unfold to_gcal_resource
  rw [h]
  rfl

/-! ## Shared run lemma -/

theorem mainRun_change (env : Env) (state : SyncState) (resp : FetchResp) (cal : List VEvent)
    (nowUtc : Int) (existing : List (String × Stored)) (h304 : resp.status304 = false)
    (hh : state.hash ≠ some (env.digest resp.content)) :
    mainRun env state resp cal nowUtc existing =
      Op.saveState ⟨resp.etag, resp.last_modified, some (env.digest resp.content)⟩ ::
        Op.storeList :: reconcileOps (keptSnapshot env nowUtc cal) existing := by
  unfold mainRun
  rw [if_neg (by simp [h304]), if_neg hh]

/-! ## Claim theorems -/

/-- C9: for a date-only input the datetime normalizer returns all-day `true`
together with the instant whose wall clock reads midnight of that date and
whose offset is the one the resolved target zone assigns to that local
midnight, independently of the supplied source timezone parameter. -/
theorem c9_normalize_date (env : Env) (day : Int) (src1 src2 : Option String) (t : TzArg) :
    (normalize_dt env (DTValue.date day) src1 t).1 = true ∧
    wallSecs (normalize_dt env (DTValue.date day) src1 t).2 = day * 86400 ∧
    (normalize_dt env (DTValue.date day) src1 t).2.off =
      (env.zones (resolveTarget env t)).offAtLocal (day * 86400) ∧
    (normalize_dt env (DTValue.date day) src1 t).2.zoneName = resolveTarget env t ∧
    normalize_dt env (DTValue.date day) src1 t = normalize_dt env (DTValue.date day) src2 t := by
  refine ⟨rfl, ?_, rfl, rfl, rfl⟩
  simp only [normalize_dt, localizeZ, wallSecs]
  ring

/-- C7: `_fmt_until_value` renders a datetime `UNTIL` as the compact UTC stamp
of its instant and a bare date as the compact UTC stamp of that date's
midnight UTC (both of the form `YYYYMMDDThhmmssZ`); in particular a weekly
rule with `UNTIL` equal to the bare date 2025-12-31 encodes to text containing
`UNTIL=20251231T000000Z`. -/
theorem c7_until :
    (∀ a : Aware, fmt_until_value (RVal.dt a) = compactUTC a.utc) ∧
    (∀ day : Int, fmt_until_value (RVal.d day) = compactUTC (day * 86400)) ∧
    build_rrule_string
        [("FREQ", [RVal.str "Weekly"]), ("UNTIL", [RVal.d (daysFromCivil 2025 12 31)])] =
      "FREQ=WEEKLY;UNTIL=20251231T000000Z" := by
  refine ⟨fun a => rfl, fun day => rfl, by decide⟩

/-- C8: when an event has neither an end instant nor a duration, the canonical
end instant is the normalized start plus one day (all-day) or one hour
(timed), with the end's all-day flag copied from the start; in particular the
"Standup" event (2025-01-10T09:00 Europe/Paris, no end) canonicalizes to the
one-hour span ending 2025-01-10T10:00 Europe/Paris. -/
theorem c8_default_end (env : Env) (tz : String) (dsv : DTValue) (stz : Option String) :
    ((canonTimes env tz dsv stz none none).2.2.utc =
        (canonTimes env tz dsv stz none none).1.2.utc +
          (if (canonTimes env tz dsv stz none none).1.1 then 86400 else 3600) ∧
      (canonTimes env tz dsv stz none none).2.1 = (canonTimes env tz dsv stz none none).1.1) ∧
    (to_gcal_resource envParis evStandup).map (fun p => (p.2.start, p.2.endTime)) =
      some (GTime.dateTime "2025-01-10T09:00:00+01:00" "Europe/Paris",
        GTime.dateTime "2025-01-10T10:00:00+01:00" "Europe/Paris") := by
  refine ⟨⟨(canonTimes_default_end env tz dsv stz).2, (canonTimes_default_end env tz dsv stz).1⟩,
    by decide⟩

/-- C1 counterexample: the claim fails for an event whose explicit `DTEND` is
a bare date while `DTSTART` is a datetime — `to_gcal_resource` does not force
the end's all-day flag to match the start's when an explicit end is present:
`evMixed` gets a `dateTime` start and a `date` end. -/
theorem c1_allday_counterexample :
    (to_gcal_resource envUTC evMixed).map
      (fun p => (isDateG p.2.start, isDateG p.2.endTime)) = some (false, true) := by
  decide

/-- C1 (amended): the all-day flags of the canonical start and end agree
whenever the end is derived from a duration or defaulted, or the explicit end
instant has the same date-only/date-time form as the start; an explicit end of
the other form yields differing flags (see the counterexample). -/
theorem c1_allday_amended (env : Env) (ev : VEvent) (ds : DTValue × Option String)
    (hs : ev.dtstart = some ds)
    (hend : ev.dtend = none ∨
      ∃ dev dtz, ev.dtend = some (dev, dtz) ∧ isDateV dev = isDateV ds.1)
    (p : String × GEvent) (hp : to_gcal_resource env ev = some p) :
    isDateG p.2.start = isDateG p.2.endTime := by
  have ht := to_gcal_times env ev ds hs
  rw [hp] at ht
  simp only [Option.map_some', Option.some.injEq] at ht
  have h1 : p.2.start = gtimeOf
      (canonTimes env (map_tzid env ds.2) ds.1 ds.2 ev.dtend ev.duration).1.1
      (canonTimes env (map_tzid env ds.2) ds.1 ds.2 ev.dtend ev.duration).1.2
      (map_tzid env ds.2) := congrArg Prod.fst ht
  have h2 : p.2.endTime = gtimeOf
      (canonTimes env (map_tzid env ds.2) ds.1 ds.2 ev.dtend ev.duration).2.1
      (canonTimes env (map_tzid env ds.2) ds.1 ds.2 ev.dtend ev.duration).2.2
      (map_tzid env ds.2) := congrArg Prod.snd ht
  rw [h1, h2, isDateG_gtimeOf, isDateG_gtimeOf,
    canonTimes_flags env (map_tzid env ds.2) ds.1 ds.2 ev.dtend ev.duration hend]

/-- Witness for the amended C1: a timed event with no end gets matching
(timed) start and end flags. -/
theorem c1_allday_witness :
    (to_gcal_resource envUTC evPlain).map
      (fun p => decide (isDateG p.2.start = isDateG p.2.endTime)) = some true := by
  rcases hp : to_gcal_resource envUTC evPlain with _ | p
  · exact absurd hp (by decide)
  · have hflag := c1_allday_amended envUTC evPlain (DTValue.naive 0, none) rfl (Or.inl rfl) p hp
    simp [hflag]

/-- C5: the snapshot filter keeps an event (with a `DTSTART`) iff it is a
recurring master (`RRULE` present, no `RECURRENCE-ID`) — regardless of its
start — or its normalized start is on or after `now` minus the retention
window; an event failing the test contributes nothing to the kept snapshot. -/
theorem c5_filter (env : Env) (nowUtc : Int) (ev : VEvent) (ds : DTValue × Option String)
    (h : ev.dtstart = some ds) :
    (keepEvent env nowUtc ev = true ↔
      ((ev.rrule.isSome = true ∧ ev.recurrenceId = none) ∨
        nowUtc - env.pastDays * 86400 ≤ ((normalize_dt env ds.1 ds.2 TzArg.noArg).2).utc)) ∧
    (keepEvent env nowUtc ev = false →
      ∀ pre post, keptSnapshot env nowUtc (pre ++ ev :: post) =
        keptSnapshot env nowUtc (pre ++ post)) := by
  constructor
  · unfold keepEvent
    rw [h]
    rcases hr : ev.rrule with _ | rr <;> rcases hri : ev.recurrenceId with _ | rid <;>
      simp [hr, hri, decide_eq_true_eq]
  · intro hk pre post
    exact keptSnapshot_drop env nowUtc ev hk pre post

/-- Witness for C5: a fresh non-recurring event is kept. -/
theorem c5_filter_witness : keepEvent envUTC 0 evPlain = true :=
  (c5_filter envUTC 0 evPlain (DTValue.naive 0, none) rfl).1.mpr (Or.inr (by decide))

/-- C10: an event without a `DTSTART` is skipped before canonicalization
(`to_gcal_resource` has nothing for it and the filter drops it), contributes
nothing to the kept snapshot, and any existing managed event whose identity is
absent from the snapshot receives exactly a delete (and no insert or patch)
in the reconcile phase. -/
theorem c10_missing_start (env : Env) (nowUtc : Int) (ev : VEvent) (h : ev.dtstart = none) :
    to_gcal_resource env ev = none ∧
    keepEvent env nowUtc ev = false ∧
    (∀ pre post, keptSnapshot env nowUtc (pre ++ ev :: post) =
      keptSnapshot env nowUtc (pre ++ post)) ∧
    (∀ (src : List (String × GEvent)) (existing : List (String × Stored)) (uid : String)
      (ex : Stored), alookup uid src = none → (uid, ex) ∈ existing →
      Op.delete uid ex.id ∈ reconcileOps src existing ∧
        opsFor uid (upsertOps src existing) = []) := by
  have hg : to_gcal_resource env ev = none := by unfold to_gcal_resource; rw [h]
  have hk : keepEvent env nowUtc ev = false := by unfold keepEvent; rw [h]
  refine ⟨hg, hk, fun pre post => keptSnapshot_drop env nowUtc ev hk pre post, ?_⟩
  intro src existing uid ex habs hmem
  refine ⟨?_, opsFor_upsert_none uid existing src habs⟩
  unfold reconcileOps
  exact List.mem_append.mpr (Or.inr (delete_mem src existing hmem habs))

/-- Witness for C10. -/
theorem c10_missing_start_witness :
    keepEvent envUTC 0 evNoStart = false ∧
    Op.delete "x" "gid1" ∈ reconcileOps [] [("x", ⟨"gid1", none⟩)] := by
  refine ⟨(c10_missing_start envUTC 0 evNoStart rfl).2.1, ?_⟩
  exact ((c10_missing_start envUTC 0 evNoStart rfl).2.2.2 [] [("x", ⟨"gid1", none⟩)] "x"
    ⟨"gid1", none⟩ rfl (by simp)).1

/-- C4: a run that sees a 304, or whose fetched content hashes to the
persisted hash, performs no operation at all; when a change is detected, the
very first operation is persisting the new sync-state record
`{etag, last_modified, content hash}`, before the store is even listed and
before any insert, patch or delete. -/
theorem c4_unchanged_and_persist (env : Env) (state : SyncState) (resp : FetchResp)
    (cal : List VEvent) (nowUtc : Int) (existing : List (String × Stored)) :
    (resp.status304 = true → mainRun env state resp cal nowUtc existing = []) ∧
    (state.hash = some (env.digest resp.content) →
      mainRun env state resp cal nowUtc existing = []) ∧
    (resp.status304 = false → state.hash ≠ some (env.digest resp.content) →
      mainRun env state resp cal nowUtc existing =
        Op.saveState ⟨resp.etag, resp.last_modified, some (env.digest resp.content)⟩ ::
          Op.storeList :: reconcileOps (keptSnapshot env nowUtc cal) existing) := by
  refine ⟨?_, ?_, fun h304 hh => mainRun_change env state resp cal nowUtc existing h304 hh⟩
  · intro h
    unfold mainRun
    rw [if_pos h]
  · intro h
    unfold mainRun
    by_cases h304 : resp.status304 = true
    · rw [if_pos h304]
    · rw [if_neg h304, if_pos h]

/-- Witness for C4: a 304 answer produces the empty trace. -/
theorem c4_unchanged_witness :
    mainRun envUTC ⟨none, none, none⟩ ⟨true, "", none, none⟩ [] 0 [] = [] :=
  (c4_unchanged_and_persist envUTC ⟨none, none, none⟩ ⟨true, "", none, none⟩ [] 0 []).1 rfl

/-- C3 counterexample: the claim as stated is false — the override instant of
`evOvr` (whose start `TZID` resolves to `Europe/Helsinki`) is normalized with
the configured default zone (Europe/Paris) as target, so the computed identity
is `series1::1970-01-12T14:46:40+01:00` and not the claimed rendering in the
event's own resolved zone, `series1::1970-01-12T15:46:40+02:00`. -/
theorem c3_identity_counterexample :
    identityOf envHel evOvr ≠
      some ("series1" ++ "::" ++ isoAware (normalize_dt envHel
        (DTValue.aware ⟨1000000, 0, "UTC"⟩) none
        (TzArg.zoneObj (map_tzid envHel (some "FLE Standard Time")))).2) := by
  decide

/-- C3 (amended): the identity of a recurrence override is the base identifier
followed by `::` and the ISO form of the override instant normalized — with
its own `TZID` parameter as source — to the *configured default* zone (not the
event's zone); the identity depends only on the base identifier and that
normalized instant, and overrides with distinct normalized instants (within
Python's datetime range) receive distinct identities. -/
theorem c3_identity_amended (env : Env) (ev : VEvent) (rid : DTValue × Option String)
    (hr : ev.recurrenceId = some rid) (ds : DTValue × Option String)
    (hs : ev.dtstart = some ds) :
    identityOf env ev =
      some (ev.uid ++ "::" ++ isoAware (normalize_dt env rid.1 rid.2 TzArg.noArg).2) ∧
    (∀ (ev2 : VEvent) (rid2 ds2 : DTValue × Option String),
      ev2.recurrenceId = some rid2 → ev2.dtstart = some ds2 → ev2.uid = ev.uid →
      ((normalize_dt env rid2.1 rid2.2 TzArg.noArg).2 =
          (normalize_dt env rid.1 rid.2 TzArg.noArg).2 →
        identityOf env ev2 = identityOf env ev) ∧
      (isoRangeOK (normalize_dt env rid.1 rid.2 TzArg.noArg).2 →
        isoRangeOK (normalize_dt env rid2.1 rid2.2 TzArg.noArg).2 →
        (normalize_dt env rid2.1 rid2.2 TzArg.noArg).2.utc ≠
          (normalize_dt env rid.1 rid.2 TzArg.noArg).2.utc →
        identityOf env ev2 ≠ identityOf env ev)) := by
  have huid : identityOf env ev =
      some (ev.uid ++ "::" ++ isoAware (normalize_dt env rid.1 rid.2 TzArg.noArg).2) := by
    rw [to_gcal_uid env ev ds hs, hr]
  refine ⟨huid, ?_⟩
  intro ev2 rid2 ds2 hr2 hs2 hb
  have huid2 : identityOf env ev2 =
      some (ev2.uid ++ "::" ++ isoAware (normalize_dt env rid2.1 rid2.2 TzArg.noArg).2) := by
    rw [to_gcal_uid env ev2 ds2 hs2, hr2]
  constructor
  · intro hsame
    rw [huid, huid2, hb, hsame]
  · intro hok1 hok2 hne heq
    rw [huid, huid2, hb] at heq
    have hstr := Option.some.inj heq
    have hdata := congrArg String.data hstr
    rw [String.data_append, String.data_append, String.data_append, String.data_append]
      at hdata
    rw [List.append_assoc, List.append_assoc] at hdata
    have hiso : (isoAware (normalize_dt env rid2.1 rid2.2 TzArg.noArg).2).data =
        (isoAware (normalize_dt env rid.1 rid.2 TzArg.noArg).2).data :=
      List.append_cancel_left (List.append_cancel_left hdata)
    have hinj := isoAware_inj hok2 hok1 (string_data_inj hiso)
    exact hne hinj.1

/-- Witness for the amended C3: the identity of `evOvr` is its base uid plus
the default-zone rendering of its override instant, and the override at a
different instant (`evOvr2`) gets a different identity. -/
theorem c3_identity_witness :
    identityOf envHel evOvr = some ("series1" ++ "::" ++
      isoAware (normalize_dt envHel (DTValue.aware ⟨1000000, 0, "UTC"⟩) none TzArg.noArg).2) ∧
    identityOf envHel evOvr2 ≠ identityOf envHel evOvr := by
  constructor
  · exact (c3_identity_amended envHel evOvr (DTValue.aware ⟨1000000, 0, "UTC"⟩, none) rfl
      (DTValue.naive 1000000, some "FLE Standard Time") rfl).1
  · exact ((c3_identity_amended envHel evOvr (DTValue.aware ⟨1000000, 0, "UTC"⟩, none) rfl
      (DTValue.naive 1000000, some "FLE Standard Time") rfl).2 evOvr2
      (DTValue.aware ⟨1003600, 0, "UTC"⟩, none)
      (DTValue.naive 1003600, some "FLE Standard Time") rfl rfl rfl).2
      (by decide) (by decide) (by decide)

/-- C2: in a change-detected run, for every identity: matching snapshot and
store entries with equal fingerprints yield no operation for that identity; a
differing (or missing) stored fingerprint yields exactly one patch carrying
the new canonical resource; a snapshot entry with no stored counterpart yields
exactly one insert; and a stored identity absent from the snapshot yields
exactly one delete. -/
theorem c2_reconcile (env : Env) (state : SyncState) (resp : FetchResp) (cal : List VEvent)
    (nowUtc : Int) (existing : List (String × Stored)) (uid : String)
    (h304 : resp.status304 = false) (hh : state.hash ≠ some (env.digest resp.content))
    (hnd : (existing.map Prod.fst).Nodup) :
    (∀ res ex, alookup uid (keptSnapshot env nowUtc cal) = some res →
      alookup uid existing = some ex → ex.fp = some res.fp →
      opsFor uid (mainRun env state resp cal nowUtc existing) = []) ∧
    (∀ res ex, alookup uid (keptSnapshot env nowUtc cal) = some res →
      alookup uid existing = some ex → ex.fp ≠ some res.fp →
      opsFor uid (mainRun env state resp cal nowUtc existing) = [Op.patch uid ex.id res]) ∧
    (∀ res, alookup uid (keptSnapshot env nowUtc cal) = some res →
      alookup uid existing = none →
      opsFor uid (mainRun env state resp cal nowUtc existing) = [Op.insert uid res]) ∧
    (∀ ex, alookup uid (keptSnapshot env nowUtc cal) = none →
      alookup uid existing = some ex →
      opsFor uid (mainRun env state resp cal nowUtc existing) = [Op.delete uid ex.id]) := by
  have hmain := mainRun_change env state resp cal nowUtc existing h304 hh
  have hops : opsFor uid (mainRun env state resp cal nowUtc existing) =
      opsFor uid (upsertOps (keptSnapshot env nowUtc cal) existing) ++
        opsFor uid (deleteOps (keptSnapshot env nowUtc cal) existing) := by
    rw [hmain]
    show opsFor uid (Op.saveState _ :: Op.storeList :: reconcileOps _ _) = _
    unfold opsFor reconcileOps
    rw [List.filter_cons_of_neg (by simp [opUid]), List.filter_cons_of_neg (by simp [opUid]),
      List.filter_append]
  have hup := opsFor_upsertOps uid existing (keptSnapshot env nowUtc cal)
    (keptSnapshot_nodup env nowUtc cal)
  have hdel := opsFor_deleteOps uid (keptSnapshot env nowUtc cal) existing hnd
  refine ⟨?_, ?_, ?_, ?_⟩
  · intro res ex h1 h2 h3
    rw [hops, hup, hdel, h1, h2]
    simp [h3]
  · intro res ex h1 h2 h3
    rw [hops, hup, hdel, h1, h2]
    simp [h3]
  · intro res h1 h2
    rw [hops, hup, hdel, h1, h2]
    simp
  · intro ex h1 h2
    rw [hops, hup, hdel, h1, h2]
    simp

/-- Witness for C2: a store-only identity receives exactly one delete. -/
theorem c2_reconcile_witness :
    opsFor "x" (mainRun envUTC ⟨none, none, none⟩ ⟨false, "body", none, none⟩ [] 0
      [("x", ⟨"gid1", none⟩)]) = [Op.delete "x" "gid1"] :=
  (c2_reconcile envUTC ⟨none, none, none⟩ ⟨false, "body", none, none⟩ [] 0
    [("x", ⟨"gid1", none⟩)] "x" rfl (by decide) (by decide)).2.2.2 ⟨"gid1", none⟩ rfl rfl

/-- C6: with a collision-free digest, two canonical resources have equal
fingerprints iff they agree on summary, description, location, start, end,
recurrence-rule text (a missing rule reads as the empty text), exception-date
list and added-date list; differing in any one of those fields changes the
fingerprint. -/
theorem c6_fingerprint (env : Env) (hinj : Function.Injective env.digest)
    (su1 de1 lo1 : String) (st1 et1 : GTime) (rr1 : Option String) (ex1 rd1 : List String)
    (su2 de2 lo2 : String) (st2 et2 : GTime) (rr2 : Option String) (ex2 rd2 : List String) :
    event_fingerprint env su1 de1 lo1 (jsonOfGTime st1) (jsonOfGTime et1) rr1 ex1 rd1 =
      event_fingerprint env su2 de2 lo2 (jsonOfGTime st2) (jsonOfGTime et2) rr2 ex2 rd2 ↔
    (su1 = su2 ∧ de1 = de2 ∧ lo1 = lo2 ∧ st1 = st2 ∧ et1 = et2 ∧
      rr1.getD "" = rr2.getD "" ∧ ex1 = ex2 ∧ rd1 = rd2) := by
  constructor
  · intro h
    unfold event_fingerprint at h
    have hp := asString_inj (hinj h)
    obtain ⟨hsu, hde, hlo, hst, het, hrr, hex, hrd⟩ := fpPayloadL_inj hp
    exact ⟨hsu, hde, hlo, jsonOfGTime_inj hst, jsonOfGTime_inj het, hrr, hex, hrd⟩
  · rintro ⟨h1, h2, h3, h4, h5, h6, h7, h8⟩
    unfold event_fingerprint
    rw [h1, h2, h3, h4, h5, h6, h7, h8]

/-- Witness for C6: two resources differing only in the summary have distinct
fingerprints (the identity digest of `envUTC` is injective). -/
theorem c6_fingerprint_witness :
    (event_fingerprint envUTC "a" "" "" (jsonOfGTime (GTime.date "1970-01-01"))
        (jsonOfGTime (GTime.date "1970-01-02")) none [] [] =
      event_fingerprint envUTC "b" "" "" (jsonOfGTime (GTime.date "1970-01-01"))
        (jsonOfGTime (GTime.date "1970-01-02")) none [] []) ↔
    ("a" = "b" ∧ ("" : String) = "" ∧ ("" : String) = "" ∧
      GTime.date "1970-01-01" = GTime.date "1970-01-01" ∧
      GTime.date "1970-01-02" = GTime.date "1970-01-02" ∧
      (Option.getD none "" = Option.getD none "") ∧ ([] : List String) = [] ∧
      ([] : List String) = []) :=
  c6_fingerprint envUTC (fun _ _ hab => hab) "a" "" "" (GTime.date "1970-01-01")
    (GTime.date "1970-01-02") none [] [] "b" "" "" (GTime.date "1970-01-01")
    (GTime.date "1970-01-02") none [] []
